import Mathlib

/-!
Verification of the Olist e-commerce ETL pipeline core: the cleaner
(`cleaner.py`), the extractor (`src/extract.py`), the loader
(`src/load.py`) and the multi-statement SQL query runner
(`src/transform.py`), shallowly embedded in Lean.

Tabular data (pandas DataFrames) is modelled as named columns of cells
with an explicit dtype; the pandas date parser is abstracted as a
parameter `p : List Char -> Option Int` mapping a textual value to a
timestamp (seconds, as an integer) or to a parse failure.  External
collaborators (the SQLite store, the network, the file system) are
modelled as explicit parameters, following the spec's description of
those interfaces.
-/

namespace OlistEtl

/-! ## Python string whitespace model

`isWs` models Python's notion of (ASCII) whitespace used by `str.strip`
and by the regex class in the statement splitter. -/

def isWs (c : Char) : Bool :=
  c = ' ' || c = '\t' || c = '\n' || c = '\r' || c = '\x0b' || c = '\x0c'

/-- Leading-whitespace removal, as in Python `str.lstrip()`. -/
def dropWs (l : List Char) : List Char := l.dropWhile isWs

/-- Trailing-whitespace removal, as in Python `str.rstrip()`. -/
def stripEnd (l : List Char) : List Char := ((l.reverse).dropWhile isWs).reverse

/-- Python `str.strip()`: remove leading and trailing whitespace. -/
def pstrip (l : List Char) : List Char := stripEnd (dropWs l)

theorem dropWhile_dropWhile (p : Char → Bool) (l : List Char) :
    List.dropWhile p (List.dropWhile p l) = List.dropWhile p l := by
  induction l with
  | nil => rfl
  | cons c t ih =>
    by_cases h : p c
    · simp [List.dropWhile_cons, h, ih]
    · simp [List.dropWhile_cons, h]

/-- A list has no leading whitespace character. -/
def noLeadWs : List Char → Bool
  | [] => true
  | c :: _ => !(isWs c)

theorem noLeadWs_dropWhile (l : List Char) : noLeadWs (l.dropWhile isWs) = true := by
  induction l with
  | nil => rfl
  | cons c t ih =>
    by_cases h : isWs c
    · simpa [List.dropWhile_cons, h] using ih
    · simp [List.dropWhile_cons, h, noLeadWs]

theorem dropWhile_of_noLeadWs (l : List Char) (h : noLeadWs l = true) :
    l.dropWhile isWs = l := by
  cases l with
  | nil => rfl
  | cons c t =>
    simp only [noLeadWs, Bool.not_eq_true'] at h
    simp [List.dropWhile_cons, h]

/-- `stripEnd` only removes a trailing segment: the original list is the
stripped list followed by its removed whitespace tail. -/
theorem stripEnd_append (l : List Char) :
    l = stripEnd l ++ (List.takeWhile isWs l.reverse).reverse := by
  have h : (List.takeWhile isWs l.reverse ++ List.dropWhile isWs l.reverse).reverse = l := by
    rw [List.takeWhile_append_dropWhile, List.reverse_reverse]
  rw [stripEnd, ← List.reverse_append, h]

theorem noLeadWs_stripEnd (l : List Char) (h : noLeadWs l = true) :
    noLeadWs (stripEnd l) = true := by
  cases hs : stripEnd l with
  | nil => rfl
  | cons c t =>
    have happ := stripEnd_append l
    rw [hs] at happ
    cases l with
    | nil => simp at happ
    | cons a b =>
      have : a = c := by
        have := happ
        simp only [List.cons_append] at this
        exact (List.cons.injEq _ _ _ _ ▸ this).1
      subst this
      simpa [noLeadWs] using h

theorem stripEnd_stripEnd (l : List Char) : stripEnd (stripEnd l) = stripEnd l := by
  unfold stripEnd
  rw [List.reverse_reverse, dropWhile_dropWhile]

theorem pstrip_idem (l : List Char) : pstrip (pstrip l) = pstrip l := by
  unfold pstrip
  have h1 : noLeadWs (dropWs l) = true := noLeadWs_dropWhile l
  have h2 : noLeadWs (stripEnd (dropWs l)) = true := noLeadWs_stripEnd _ h1
  have h3 : dropWs (stripEnd (dropWs l)) = stripEnd (dropWs l) :=
    dropWhile_of_noLeadWs _ h2
  rw [h3, stripEnd_stripEnd]

/-! ## Tabular data model

A `Cell` is one value of a column: a text value, a (naive) timestamp
measured in integer seconds, the null/missing marker (pandas `NaT` /
`NaN`), or some other scalar (number, boolean, `None`).  A `Col` carries
the column's dtype; `DF` is a dataframe, a named ordered list of
columns. -/

inductive Cell where
  | str (s : List Char)
  | ts (t : Int)
  | nullv
  | other
deriving DecidableEq

inductive DType where
  | obj
  | dtime
  | num
deriving DecidableEq

structure Col where
  dtype : DType
  cells : List Cell
deriving DecidableEq

structure DF where
  cols : List (String × Col)
deriving DecidableEq

/-- Row count of a dataframe (all columns share one length in pandas). -/
def nrowsDF (df : DF) : Nat :=
  match df.cols with
  | [] => 0
  | (_, c) :: _ => c.cells.length

/-- pandas `df.empty`: true when either axis has length zero. -/
def isEmptyDF (df : DF) : Bool := df.cols.isEmpty || nrowsDF df == 0

/-! ## Cleaner (`cleaner.py`) -/

/-- `_DATE_COLUMNS_KNOWN` from `cleaner.py`. -/
def knownDateCols : List String :=
  ["order_purchase_timestamp", "order_approved_at",
   "order_delivered_carrier_date", "order_delivered_customer_date",
   "order_estimated_delivery_date", "shipping_limit_date",
   "review_creation_date", "review_creation_timestamp",
   "review_answer_timestamp", "review_answer_date", "date"]

/-- `_HOLIDAYS_TABLE_HINTS` from `cleaner.py`. -/
def holidaysHints : List String :=
  ["public_holidays", "holidays", "brazil_public_holidays", "feriados"]

/-- Value-level whitespace strip: strings are stripped, every other
value passes through unchanged (the `lambda` in `_strip_object_columns`). -/
def stripCell : Cell → Cell
  | .str s => .str (pstrip s)
  | c => c

/-- Per-column strip: only object-dtype columns are touched. -/
def stripCol (c : Col) : Col :=
  if c.dtype = DType.obj then ⟨DType.obj, c.cells.map stripCell⟩ else c

def stripColsF (nc : String × Col) : String × Col := (nc.1, stripCol nc.2)

/-- `_strip_object_columns`: empty frames pass through unchanged. -/
def stripObjectColumns (df : DF) : DF :=
  if isEmptyDF df then df else ⟨df.cols.map stripColsF⟩

/-- `pd.to_datetime(x, errors="coerce")` on one cell, for an abstract
textual date parser `p`; unparseable and non-date values coerce to the
null marker, existing timestamps are preserved. -/
def parseCell (p : List Char → Option Int) : Cell → Cell
  | .str s =>
    match p s with
    | some t => .ts t
    | none => .nullv
  | .ts t => .ts t
  | .nullv => .nullv
  | .other => .nullv

/-- `pd.to_datetime(col, errors="coerce", utc=False)`: the column becomes
timestamp-typed, each cell coerced via `parseCell`. -/
def toDatetimeCol (p : List Char → Option Int) (c : Col) : Col :=
  ⟨DType.dtime, c.cells.map (parseCell p)⟩

def parseColsF (p : List Char → Option Int) (nc : String × Col) : String × Col :=
  if nc.1 ∈ knownDateCols then (nc.1, toDatetimeCol p nc.2) else nc

/-- `_parse_dates_safe` (as called by `clean`, with `only=None`): parse
every column whose name is a known date column; empty frames pass
through unchanged. -/
def parseDatesSafe (p : List Char → Option Int) (df : DF) : DF :=
  if isEmptyDF df then df else ⟨df.cols.map (parseColsF p)⟩

/-- Truncate a timestamp to midnight (`.dt.normalize()`), with the day
length of 86400 seconds. -/
def normTs (t : Int) : Int := t - t % 86400

def normCell : Cell → Cell
  | .ts t => .ts (normTs t)
  | c => c

/-- `.dt.normalize()` over a column (applied after `pd.to_datetime`). -/
def normCol (c : Col) : Col := ⟨DType.dtime, c.cells.map normCell⟩

def normDateF (p : List Char → Option Int) (nc : String × Col) : String × Col :=
  if nc.1 = "date" then (nc.1, normCol (toDatetimeCol p nc.2)) else nc

/-- `_normalize_holidays_date`: normalize the `date` column to midnight;
empty frames and frames without a `date` column pass through unchanged. -/
def normalizeHolidaysDate (p : List Char → Option Int) (df : DF) : DF :=
  if isEmptyDF df ∨ "date" ∉ df.cols.map Prod.fst then df
  else ⟨df.cols.map (normDateF p)⟩

/-- Per-table `clean` body: strip, safe date parsing, then holiday
normalization when the (lowercased) table name is a holidays alias. -/
def cleanTable (p : List Char → Option Int) (name : String) (df : DF) : DF :=
  let s1 := stripObjectColumns df
  let s2 := parseDatesSafe p s1
  if name.toLower ∈ holidaysHints then normalizeHolidaysDate p s2 else s2

/-- `clean`: apply `cleanTable` to every table of the mapping (a Python
dict, modelled as an ordered association list). -/
def cleanTables (p : List Char → Option Int) (ts : List (String × DF)) :
    List (String × DF) :=
  ts.map (fun nt => (nt.1, cleanTable p nt.1 nt.2))

/-! ### Cleaner idempotence: cell- and column-level lemmas -/

theorem stripCell_stripCell (c : Cell) : stripCell (stripCell c) = stripCell c := by
  cases c <;> simp [stripCell, pstrip_idem]

theorem parseCell_parseCell (p : List Char → Option Int) (c : Cell) :
    parseCell p (parseCell p c) = parseCell p c := by
  cases c with
  | str s => cases hp : p s <;> simp [parseCell, hp]
  | ts t => rfl
  | nullv => rfl
  | other => rfl

theorem parseCell_normCell_parseCell (p : List Char → Option Int) (c : Cell) :
    parseCell p (normCell (parseCell p c)) = normCell (parseCell p c) := by
  cases c with
  | str s => cases hp : p s <;> simp [parseCell, normCell, hp]
  | ts t => rfl
  | nullv => rfl
  | other => rfl

theorem normTs_normTs (t : Int) : normTs (normTs t) = normTs t := by
  unfold normTs
  have h : (t - t % 86400) % 86400 = 0 := by
    have h2 : t - t % 86400 = 86400 * (t / 86400) := by
      have := Int.ediv_add_emod t 86400
      omega
    rw [h2]
    exact Int.mul_emod_right _ _
  rw [h]
  ring

theorem normCell_normCell (c : Cell) : normCell (normCell c) = normCell c := by
  cases c <;> simp [normCell, normTs_normTs]

theorem stripCol_stripCol (c : Col) : stripCol (stripCol c) = stripCol c := by
  by_cases h : c.dtype = DType.obj
  · simp [stripCol, h, List.map_map, Function.comp_def, stripCell_stripCell]
  · simp [stripCol, h]

theorem stripCol_of_ne_obj (c : Col) (h : ¬ c.dtype = DType.obj) : stripCol c = c := by
  simp [stripCol, h]

theorem toDT_toDT (p : List Char → Option Int) (c : Col) :
    toDatetimeCol p (toDatetimeCol p c) = toDatetimeCol p c := by
  simp [toDatetimeCol, List.map_map, Function.comp_def, parseCell_parseCell]

theorem toDT_normCol_toDT (p : List Char → Option Int) (c : Col) :
    toDatetimeCol p (normCol (toDatetimeCol p c)) = normCol (toDatetimeCol p c) := by
  simp [toDatetimeCol, normCol, List.map_map, Function.comp_def,
    parseCell_normCell_parseCell]

theorem normCol_normCol (c : Col) : normCol (normCol c) = normCol c := by
  simp [normCol, List.map_map, Function.comp_def, normCell_normCell]

theorem stripCol_toDT (p : List Char → Option Int) (c : Col) :
    stripCol (toDatetimeCol p c) = toDatetimeCol p c :=
  stripCol_of_ne_obj _ (by simp [toDatetimeCol])

theorem stripCol_normCol (c : Col) : stripCol (normCol c) = normCol c :=
  stripCol_of_ne_obj _ (by simp [normCol])

theorem stripColsF_fst (nc : String × Col) : (stripColsF nc).1 = nc.1 := rfl

theorem parseColsF_fst (p : List Char → Option Int) (nc : String × Col) :
    (parseColsF p nc).1 = nc.1 := by
  by_cases h : nc.1 ∈ knownDateCols <;> simp [parseColsF, h]

theorem normDateF_fst (p : List Char → Option Int) (nc : String × Col) :
    (normDateF p nc).1 = nc.1 := by
  by_cases h : nc.1 = "date" <;> simp [normDateF, h]

theorem normDateF_of_ne (p : List Char → Option Int) (nc : String × Col)
    (h : ¬ nc.1 = "date") : normDateF p nc = nc := by
  simp [normDateF, h]

/-- Pointwise second-pass identity for a non-holidays cleaned column. -/
theorem parse_strip_fix (p : List Char → Option Int) (nc : String × Col) :
    parseColsF p (stripColsF (parseColsF p (stripColsF nc))) =
      parseColsF p (stripColsF nc) := by
  obtain ⟨n, c⟩ := nc
  by_cases h : n ∈ knownDateCols
  · simp [stripColsF, parseColsF, h, stripCol_toDT, toDT_toDT]
  · simp [stripColsF, parseColsF, h, stripCol_stripCol]

/-- Pointwise second-pass identity for a holidays cleaned column. -/
theorem norm_parse_strip_fix (p : List Char → Option Int) (nc : String × Col) :
    normDateF p (parseColsF p (stripColsF (normDateF p (parseColsF p (stripColsF nc))))) =
      normDateF p (parseColsF p (stripColsF nc)) := by
  obtain ⟨n, c⟩ := nc
  by_cases hd : n = "date"
  · subst hd
    have hk : ("date" : String) ∈ knownDateCols := by decide
    simp [stripColsF, parseColsF, normDateF, hk, stripCol_toDT, stripCol_normCol,
      toDT_toDT, toDT_normCol_toDT, normCol_normCol]
  · have hfst : ¬ (parseColsF p (stripColsF (n, c))).1 = "date" := by
      rw [parseColsF_fst, stripColsF_fst]; exact hd
    rw [normDateF_of_ne p _ hfst, parse_strip_fix, normDateF_of_ne p _ hfst]

/-! ### Cleaner shape and emptiness preservation -/

theorem stripColsF_len (nc : String × Col) :
    (stripColsF nc).2.cells.length = nc.2.cells.length := by
  by_cases h : nc.2.dtype = DType.obj <;> simp [stripColsF, stripCol, h]

theorem parseColsF_len (p : List Char → Option Int) (nc : String × Col) :
    (parseColsF p nc).2.cells.length = nc.2.cells.length := by
  by_cases h : nc.1 ∈ knownDateCols <;> simp [parseColsF, toDatetimeCol, h]

theorem normDateF_len (p : List Char → Option Int) (nc : String × Col) :
    (normDateF p nc).2.cells.length = nc.2.cells.length := by
  by_cases h : nc.1 = "date" <;> simp [normDateF, normCol, toDatetimeCol, h]

/-- Mapping a length-preserving column transform preserves `df.empty`. -/
theorem isEmptyDF_map (cols : List (String × Col)) (f : String × Col → String × Col)
    (hf : ∀ nc, (f nc).2.cells.length = nc.2.cells.length) :
    isEmptyDF ⟨cols.map f⟩ = isEmptyDF ⟨cols⟩ := by
  cases cols with
  | nil => rfl
  | cons nc rest =>
    obtain ⟨n, c⟩ := nc
    simp [isEmptyDF, nrowsDF, hf (n, c)]

/-- Single-column composite applied by `clean` to every column of a
non-empty frame: whitespace strip followed by known-date parsing. -/
def cleanColF (p : List Char → Option Int) (nc : String × Col) : String × Col :=
  parseColsF p (stripColsF nc)

theorem cleanColF_fst (p : List Char → Option Int) (nc : String × Col) :
    (cleanColF p nc).1 = nc.1 := by
  rw [cleanColF, parseColsF_fst, stripColsF_fst]

theorem cleanColF_len (p : List Char → Option Int) (nc : String × Col) :
    (cleanColF p nc).2.cells.length = nc.2.cells.length := by
  rw [cleanColF, parseColsF_len, stripColsF_len]

theorem cleanColF_fix (p : List Char → Option Int) (nc : String × Col) :
    cleanColF p (cleanColF p nc) = cleanColF p nc :=
  parse_strip_fix p nc

theorem normCleanF_fix (p : List Char → Option Int) (nc : String × Col) :
    normDateF p (cleanColF p (normDateF p (cleanColF p nc))) =
      normDateF p (cleanColF p nc) :=
  norm_parse_strip_fix p nc

theorem map_fst_eq (cols : List (String × Col)) (f : String × Col → String × Col)
    (hf : ∀ nc, (f nc).1 = nc.1) :
    (cols.map f).map Prod.fst = cols.map Prod.fst := by
  rw [List.map_map]
  have h : (Prod.fst ∘ f) = (Prod.fst : String × Col → String) := funext hf
  rw [h]

theorem nrowsDF_map (cols : List (String × Col)) (f : String × Col → String × Col)
    (hf : ∀ nc, (f nc).2.cells.length = nc.2.cells.length) :
    nrowsDF ⟨cols.map f⟩ = nrowsDF ⟨cols⟩ := by
  cases cols with
  | nil => rfl
  | cons nc rest => simp [nrowsDF, hf nc]

theorem cleanTable_unfold (p : List Char → Option Int) (name : String) (df : DF) :
    cleanTable p name df =
      if name.toLower ∈ holidaysHints
      then normalizeHolidaysDate p (parseDatesSafe p (stripObjectColumns df))
      else parseDatesSafe p (stripObjectColumns df) := rfl

theorem cleanTable_of_empty (p : List Char → Option Int) (name : String) (df : DF)
    (h : isEmptyDF df = true) : cleanTable p name df = df := by
  rw [cleanTable_unfold]
  simp [stripObjectColumns, parseDatesSafe, normalizeHolidaysDate, h]

theorem strip_parse_eq (p : List Char → Option Int) (X : DF)
    (hE : isEmptyDF X = false) :
    parseDatesSafe p (stripObjectColumns X) = ⟨X.cols.map (cleanColF p)⟩ := by
  have hs : stripObjectColumns X = ⟨X.cols.map stripColsF⟩ := by
    simp [stripObjectColumns, hE]
  have hE2 : isEmptyDF ⟨X.cols.map stripColsF⟩ = false := by
    rw [isEmptyDF_map X.cols stripColsF stripColsF_len]
    cases X
    exact hE
  rw [hs]
  rw [show parseDatesSafe p ⟨X.cols.map stripColsF⟩ =
      ⟨(X.cols.map stripColsF).map (parseColsF p)⟩ from by
    simp [parseDatesSafe, hE2]]
  rw [List.map_map]
  rfl

theorem normalizeHolidays_of_mem (p : List Char → Option Int) (X : DF)
    (hE : isEmptyDF X = false) (hd : "date" ∈ X.cols.map Prod.fst) :
    normalizeHolidaysDate p X = ⟨X.cols.map (normDateF p)⟩ := by
  simp [normalizeHolidaysDate, hE, hd]

theorem normalizeHolidays_of_not_mem (p : List Char → Option Int) (X : DF)
    (hd : "date" ∉ X.cols.map Prod.fst) :
    normalizeHolidaysDate p X = X := by
  simp [normalizeHolidaysDate, hd]

/-- Non-empty, non-holidays table: `clean` is the per-column composite. -/
theorem cleanTable_eq_plain (p : List Char → Option Int) (name : String) (df : DF)
    (hE : isEmptyDF df = false) (hH : name.toLower ∉ holidaysHints) :
    cleanTable p name df = ⟨df.cols.map (cleanColF p)⟩ := by
  rw [cleanTable_unfold, if_neg hH, strip_parse_eq p df hE]

/-- Non-empty holidays table with a `date` column. -/
theorem cleanTable_eq_holiday_mem (p : List Char → Option Int) (name : String)
    (df : DF) (hE : isEmptyDF df = false) (hH : name.toLower ∈ holidaysHints)
    (hd : "date" ∈ df.cols.map Prod.fst) :
    cleanTable p name df = ⟨df.cols.map (fun nc => normDateF p (cleanColF p nc))⟩ := by
  rw [cleanTable_unfold, if_pos hH, strip_parse_eq p df hE]
  have hE2 : isEmptyDF ⟨df.cols.map (cleanColF p)⟩ = false := by
    rw [isEmptyDF_map df.cols _ (cleanColF_len p)]
    cases df
    exact hE
  have hd2 : "date" ∈ (⟨df.cols.map (cleanColF p)⟩ : DF).cols.map Prod.fst := by
    show "date" ∈ (df.cols.map (cleanColF p)).map Prod.fst
    rw [map_fst_eq df.cols _ (cleanColF_fst p)]
    exact hd
  rw [normalizeHolidays_of_mem p _ hE2 hd2]
  simp only [List.map_map]
  rfl

/-- Non-empty holidays table without a `date` column. -/
theorem cleanTable_eq_holiday_not (p : List Char → Option Int) (name : String)
    (df : DF) (hE : isEmptyDF df = false) (hH : name.toLower ∈ holidaysHints)
    (hd : "date" ∉ df.cols.map Prod.fst) :
    cleanTable p name df = ⟨df.cols.map (cleanColF p)⟩ := by
  rw [cleanTable_unfold, if_pos hH, strip_parse_eq p df hE]
  have hd2 : "date" ∉ (⟨df.cols.map (cleanColF p)⟩ : DF).cols.map Prod.fst := by
    show "date" ∉ (df.cols.map (cleanColF p)).map Prod.fst
    rw [map_fst_eq df.cols _ (cleanColF_fst p)]
    exact hd
  rw [normalizeHolidays_of_not_mem p _ hd2]

theorem cleanTable_idem (p : List Char → Option Int) (name : String) (df : DF) :
    cleanTable p name (cleanTable p name df) = cleanTable p name df := by
  by_cases hE : isEmptyDF df = true
  · rw [cleanTable_of_empty p name df hE, cleanTable_of_empty p name df hE]
  · have hE1 : isEmptyDF df = false := by
      revert hE
      cases isEmptyDF df <;> simp
    by_cases hH : name.toLower ∈ holidaysHints
    · by_cases hd : "date" ∈ df.cols.map Prod.fst
      · rw [cleanTable_eq_holiday_mem p name df hE1 hH hd]
        have hE2 : isEmptyDF ⟨df.cols.map (fun nc => normDateF p (cleanColF p nc))⟩ = false := by
          rw [isEmptyDF_map df.cols _
            (fun nc => by rw [normDateF_len, cleanColF_len])]
          cases df
          exact hE1
        have hd2 : "date" ∈
            (⟨df.cols.map (fun nc => normDateF p (cleanColF p nc))⟩ : DF).cols.map Prod.fst := by
          show "date" ∈ (df.cols.map _).map Prod.fst
          rw [map_fst_eq df.cols _ (fun nc => by rw [normDateF_fst, cleanColF_fst])]
          exact hd
        rw [cleanTable_eq_holiday_mem p name _ hE2 hH hd2]
        simp only [List.map_map]
        exact congrArg DF.mk (congrArg (fun f => List.map f df.cols)
          (funext fun nc => normCleanF_fix p nc))
      · rw [cleanTable_eq_holiday_not p name df hE1 hH hd]
        have hE2 : isEmptyDF ⟨df.cols.map (cleanColF p)⟩ = false := by
          rw [isEmptyDF_map df.cols _ (cleanColF_len p)]
          cases df
          exact hE1
        have hd2 : "date" ∉ (⟨df.cols.map (cleanColF p)⟩ : DF).cols.map Prod.fst := by
          show "date" ∉ (df.cols.map (cleanColF p)).map Prod.fst
          rw [map_fst_eq df.cols _ (cleanColF_fst p)]
          exact hd
        rw [cleanTable_eq_holiday_not p name _ hE2 hH hd2]
        simp only [List.map_map]
        exact congrArg DF.mk (congrArg (fun f => List.map f df.cols)
          (funext fun nc => cleanColF_fix p nc))
    · rw [cleanTable_eq_plain p name df hE1 hH]
      have hE2 : isEmptyDF ⟨df.cols.map (cleanColF p)⟩ = false := by
        rw [isEmptyDF_map df.cols _ (cleanColF_len p)]
        cases df
        exact hE1
      rw [cleanTable_eq_plain p name _ hE2 hH]
      simp only [List.map_map]
      exact congrArg DF.mk (congrArg (fun f => List.map f df.cols)
        (funext fun nc => cleanColF_fix p nc))

/-- C3: cleaning is idempotent.  For every mapping of tables `T` and every
date parser `p`, `clean (clean T) = clean T`: whitespace stripping, known
date-column parsing and holiday date normalization each leave an
already-cleaned table unchanged. -/
theorem C3_clean_idempotent (p : List Char → Option Int) (T : List (String × DF)) :
    cleanTables p (cleanTables p T) = cleanTables p T := by
  unfold cleanTables
  rw [List.map_map]
  refine congrArg (fun f => List.map f T) (funext fun nt => ?h)
  simp only [Function.comp_def]
  rw [cleanTable_idem]

/-- C8: for every table passed through `clean`, the output has the same
columns (names, in the same order), the same per-column cell count, and
the same row count as the input: no rows are dropped or added and no
columns are renamed, removed or introduced. -/
theorem C8_clean_preserves_shape (p : List Char → Option Int) (name : String)
    (df : DF) :
    (cleanTable p name df).cols.map Prod.fst = df.cols.map Prod.fst ∧
    (cleanTable p name df).cols.map (fun nc => nc.2.cells.length) =
      df.cols.map (fun nc => nc.2.cells.length) ∧
    nrowsDF (cleanTable p name df) = nrowsDF df := by
  by_cases hE : isEmptyDF df = true
  · rw [cleanTable_of_empty p name df hE]
    exact ⟨rfl, rfl, rfl⟩
  · have hE1 : isEmptyDF df = false := by
      revert hE
      cases isEmptyDF df <;> simp
    have main : ∀ f : String × Col → String × Col,
        (∀ nc, (f nc).1 = nc.1) → (∀ nc, (f nc).2.cells.length = nc.2.cells.length) →
        cleanTable p name df = ⟨df.cols.map f⟩ →
        (cleanTable p name df).cols.map Prod.fst = df.cols.map Prod.fst ∧
        (cleanTable p name df).cols.map (fun nc => nc.2.cells.length) =
          df.cols.map (fun nc => nc.2.cells.length) ∧
        nrowsDF (cleanTable p name df) = nrowsDF df := by
      intro f hfst hlen heq
      refine ⟨?f1, ?f2, ?f3⟩
      case f1 =>
        rw [heq]
        exact map_fst_eq df.cols f hfst
      case f2 =>
        rw [heq]
        show (df.cols.map f).map _ = _
        rw [List.map_map]
        exact congrArg (fun g => List.map g df.cols) (funext fun nc => by
          simp [Function.comp_def, hlen nc])
      case f3 =>
        rw [heq]
        have h := nrowsDF_map df.cols f hlen
        cases df
        exact h
    by_cases hH : name.toLower ∈ holidaysHints
    · by_cases hd : "date" ∈ df.cols.map Prod.fst
      · exact main _ (fun nc => by rw [normDateF_fst, cleanColF_fst])
          (fun nc => by rw [normDateF_len, cleanColF_len])
          (cleanTable_eq_holiday_mem p name df hE1 hH hd)
      · exact main _ (cleanColF_fst p) (cleanColF_len p)
          (cleanTable_eq_holiday_not p name df hE1 hH hd)
    · exact main _ (cleanColF_fst p) (cleanColF_len p)
        (cleanTable_eq_plain p name df hE1 hH)

/-! ## Textual timestamp serialization

`save_cleaned` writes frames through a textual format (CSV) with no
native timestamp type; `load_cleaned` re-parses the sidecar-listed
columns.  The textual rendering of a timestamp is modelled concretely as
its signed decimal numeral, with `parseChars` the model date parser used
on reload; `parse_serTs` below is the round-trip property of this
external format that the code relies on. -/

def natChars (n : Nat) : List Char :=
  if n = 0 then ['0'] else (Nat.digits 10 n).reverse.map Nat.digitChar

def serTs (t : Int) : List Char :=
  if t < 0 then '-' :: natChars t.natAbs else natChars t.natAbs

def isDigitCh (c : Char) : Bool := decide ('0' ≤ c) && decide (c ≤ '9')

def parseNatChars (cs : List Char) : Option Nat :=
  if cs = [] then none
  else if cs.all isDigitCh then
    some (Nat.ofDigits 10 ((cs.map (fun c => c.toNat - 48)).reverse))
  else none

/-- The model date parser: an optional sign followed by decimal digits. -/
def parseChars (cs : List Char) : Option Int :=
  match cs with
  | [] => none
  | c :: rest =>
    if c = '-' then (parseNatChars rest).map (fun n => -(n : Int))
    else (parseNatChars cs).map (fun n => (n : Int))

theorem digitChar_isDigit (d : Nat) (hd : d < 10) : isDigitCh (Nat.digitChar d) = true := by
  interval_cases d <;> decide

theorem digitChar_decode (d : Nat) (hd : d < 10) : (Nat.digitChar d).toNat - 48 = d := by
  interval_cases d <;> decide

theorem map_mem_congr {α β : Type} (l : List α) (f g : α → β) (h : ∀ a ∈ l, f a = g a) :
    l.map f = l.map g := by
  induction l with
  | nil => rfl
  | cons a t ih =>
    simp only [List.map_cons]
    rw [h a (List.mem_cons_self a t), ih (fun x hx => h x (List.mem_cons_of_mem a hx))]

theorem parseNat_natChars (n : Nat) : parseNatChars (natChars n) = some n := by
  by_cases h0 : n = 0
  · subst h0
    decide
  · have hne : Nat.digits 10 n ≠ [] := Nat.digits_ne_nil_iff_ne_zero.mpr h0
    have hlt : ∀ d ∈ Nat.digits 10 n, d < 10 := fun d hdm =>
      Nat.digits_lt_base (by norm_num) hdm
    have hcs : natChars n = (Nat.digits 10 n).reverse.map Nat.digitChar := by
      simp [natChars, h0]
    rw [hcs]
    have hnil : ¬ ((Nat.digits 10 n).reverse.map Nat.digitChar = []) := by
      simp [hne]
    have hall : ((Nat.digits 10 n).reverse.map Nat.digitChar).all isDigitCh = true := by
      rw [List.all_eq_true]
      intro c hc
      rw [List.mem_map] at hc
      obtain ⟨d, hdm, rfl⟩ := hc
      rw [List.mem_reverse] at hdm
      exact digitChar_isDigit d (hlt d hdm)
    rw [parseNatChars, if_neg hnil, if_pos hall]
    congr 1
    rw [List.map_map]
    have hmap : (Nat.digits 10 n).reverse.map ((fun c => c.toNat - 48) ∘ Nat.digitChar) =
        (Nat.digits 10 n).reverse.map id := by
      refine map_mem_congr _ _ _ (fun d hdm => ?hpt)
      case hpt =>
        rw [List.mem_reverse] at hdm
        exact digitChar_decode d (hlt d hdm)
    rw [hmap, List.map_id, List.reverse_reverse, Nat.ofDigits_digits]

theorem natChars_head_digit (n : Nat) :
    ∃ c t, natChars n = c :: t ∧ isDigitCh c = true := by
  by_cases h0 : n = 0
  · subst h0
    exact ⟨'0', [], rfl, by decide⟩
  · have hne : Nat.digits 10 n ≠ [] := Nat.digits_ne_nil_iff_ne_zero.mpr h0
    have hlt : ∀ d ∈ Nat.digits 10 n, d < 10 := fun d hdm =>
      Nat.digits_lt_base (by norm_num) hdm
    have hcs : natChars n = (Nat.digits 10 n).reverse.map Nat.digitChar := by
      simp [natChars, h0]
    cases hr : (Nat.digits 10 n).reverse with
    | nil => exact absurd (by simpa using hr) hne
    | cons d ds =>
      refine ⟨Nat.digitChar d, ds.map Nat.digitChar, by rw [hcs, hr]; rfl, ?hd⟩
      case hd =>
        have hdm : d ∈ Nat.digits 10 n := by
          rw [← List.mem_reverse, hr]
          exact List.mem_cons_self d ds
        exact digitChar_isDigit d (hlt d hdm)

/-- Round trip of timestamps through the textual format: the model
parser inverts the model serializer. -/
theorem parse_serTs (t : Int) : parseChars (serTs t) = some t := by
  by_cases hneg : t < 0
  · have hser : serTs t = '-' :: natChars t.natAbs := by simp [serTs, hneg]
    have step : parseChars ('-' :: natChars t.natAbs) =
        (parseNatChars (natChars t.natAbs)).map (fun n => -(n : Int)) := by
      simp [parseChars]
    rw [hser, step, parseNat_natChars]
    show some (-(t.natAbs : Int)) = some t
    congr 1
    omega
  · have hser : serTs t = natChars t.natAbs := by simp [serTs, hneg]
    rw [hser]
    obtain ⟨c, tl, hct, hdig⟩ := natChars_head_digit t.natAbs
    rw [hct]
    have hcne : ¬ c = '-' := by
      intro h
      subst h
      exact absurd hdig (by decide)
    simp only [parseChars, if_neg hcne]
    rw [← hct, parseNat_natChars]
    show some ((t.natAbs : Int)) = some t
    congr 1
    omega

/-! ## Cleaned-data persistence (`save_cleaned` / `load_cleaned`) -/

/-- Python dict lookup over an association list. -/
def lookupStr {α : Type} (l : List (String × α)) (k : String) : Option α :=
  (l.find? (fun nc => nc.1 == k)).map Prod.snd

/-- `to_csv` of one cell: strings as themselves, timestamps through the
textual format, missing values as the empty field. -/
def dumpCell : Cell → List Char
  | .str s => s
  | .ts t => serTs t
  | .nullv => []
  | .other => []

/-- One serialized CSV table: column name to textual cells. -/
def dumpDF (df : DF) : List (String × List (List Char)) :=
  df.cols.map (fun nc => (nc.1, nc.2.cells.map dumpCell))

/-- `_infer_date_columns`: the table's columns that belong to the known
date-column set (the source sorts this list; only membership in it is
ever consumed on reload, so the order is irrelevant here). -/
def dateColsOf (df : DF) : List String :=
  (df.cols.map Prod.fst).filter (fun n => decide (n ∈ knownDateCols))

/-- `save_cleaned`: per-table CSV dumps plus the `_schema.json` sidecar
mapping each table to its date columns. -/
def saveCleaned (cleaned : List (String × DF)) :
    List (String × List (String × List (List Char))) × List (String × List String) :=
  (cleaned.map (fun nt => (nt.1, dumpDF nt.2)),
   cleaned.map (fun nt => (nt.1, dateColsOf nt.2)))

/-- `read_csv` of one textual cell: an empty field reads back as a
missing marker, anything else as text. -/
def readCellCsv (s : List Char) : Cell :=
  if s = [] then Cell.other else Cell.str s

def readDF (d : List (String × List (List Char))) : DF :=
  ⟨d.map (fun nc => (nc.1, ⟨DType.obj, nc.2.map readCellCsv⟩))⟩

/-- `parse_dates=...` on read: re-parse exactly the listed columns. -/
def applyParseDates (p : List Char → Option Int) (dateCols : List String) (df : DF) : DF :=
  ⟨df.cols.map (fun nc =>
    if nc.1 ∈ dateCols then (nc.1, toDatetimeCol p nc.2) else nc)⟩

/-- `load_cleaned`: iterate the sidecar, skip tables whose CSV is
missing, re-parse the listed date columns of each loaded table. -/
def loadCleaned (p : List Char → Option Int)
    (files : List (String × List (String × List (List Char))))
    (schema : List (String × List String)) : List (String × DF) :=
  schema.filterMap (fun ns =>
    match lookupStr files ns.1 with
    | none => none
    | some d => some (ns.1, applyParseDates p ns.2 (readDF d)))

/-- pandas invariant: all columns of a frame share one row count. -/
def wfDF (df : DF) : Prop := ∀ nc ∈ df.cols, nc.2.cells.length = nrowsDF df

instance : DecidablePred wfDF := fun df => by
  unfold wfDF
  infer_instance

/-- A cell legal in a parsed date column: a timestamp or the null marker. -/
def dateCellOk (x : Cell) : Prop := x = Cell.nullv ∨ ∃ t, x = Cell.ts t

theorem parseCell_ok (p : List Char → Option Int) (x : Cell) :
    dateCellOk (parseCell p x) := by
  cases x with
  | str s => cases hp : p s <;> simp [parseCell, hp, dateCellOk]
  | ts t => exact Or.inr ⟨t, rfl⟩
  | nullv => exact Or.inl rfl
  | other => exact Or.inl rfl

theorem normCell_ok (x : Cell) (h : dateCellOk x) : dateCellOk (normCell x) := by
  rcases h with h | ⟨t, h⟩ <;> subst h
  · exact Or.inl rfl
  · exact Or.inr ⟨normTs t, rfl⟩

theorem serTs_ne_nil (t : Int) : serTs t ≠ [] := by
  obtain ⟨c, tl, hct, _⟩ := natChars_head_digit t.natAbs
  by_cases hneg : t < 0 <;> simp [serTs, hneg, hct]

/-- Round trip of a date cell through dump, CSV read and re-parse. -/
theorem roundtrip_cell (p : List Char → Option Int)
    (hp : ∀ t, p (serTs t) = some t) (x : Cell) (hx : dateCellOk x) :
    parseCell p (readCellCsv (dumpCell x)) = x := by
  rcases hx with h | ⟨t, h⟩ <;> subst h
  · simp [dumpCell, readCellCsv, parseCell]
  · simp [dumpCell, readCellCsv, serTs_ne_nil t, parseCell, hp t]

theorem cleanColF_date_ok (p : List Char → Option Int) (nc : String × Col)
    (hk : nc.1 ∈ knownDateCols) : ∀ x ∈ (cleanColF p nc).2.cells, dateCellOk x := by
  intro x hx
  rw [cleanColF, stripColsF] at hx
  rw [show parseColsF p (nc.1, stripCol nc.2) = (nc.1, toDatetimeCol p (stripCol nc.2)) from by
    simp [parseColsF, hk]] at hx
  simp only [toDatetimeCol, List.mem_map] at hx
  obtain ⟨y, _, rfl⟩ := hx
  exact parseCell_ok p y

theorem normCleanF_date_ok (p : List Char → Option Int) (nc : String × Col)
    (hk : nc.1 ∈ knownDateCols) :
    ∀ x ∈ (normDateF p (cleanColF p nc)).2.cells, dateCellOk x := by
  intro x hx
  by_cases hd : (cleanColF p nc).1 = "date"
  · rw [normDateF, if_pos hd] at hx
    simp only [normCol, toDatetimeCol, List.mem_map] at hx
    obtain ⟨y, hy, rfl⟩ := hx
    obtain ⟨z, _, rfl⟩ := hy
    exact normCell_ok _ (parseCell_ok p z)
  · rw [normDateF_of_ne p _ hd] at hx
    exact cleanColF_date_ok p nc hk x hx

/-- Every cell of a known date column of a cleaned (well-formed) table is
a timestamp or a null marker. -/
theorem cleanTable_date_cells (p : List Char → Option Int) (name : String)
    (df : DF) (hwf : wfDF df) :
    ∀ j cn col, (cleanTable p name df).cols.get? j = some (cn, col) →
      cn ∈ knownDateCols → ∀ x ∈ col.cells, dateCellOk x := by
  by_cases hE : isEmptyDF df = true
  · rw [cleanTable_of_empty p name df hE]
    intro j cn col hj _ x hx
    have hmem : (cn, col) ∈ df.cols := List.get?_mem hj
    have hlen := hwf _ hmem
    simp only [isEmptyDF, Bool.or_eq_true, List.isEmpty_iff, beq_iff_eq] at hE
    rcases hE with hE | hE
    · rw [hE] at hmem
      exact absurd hmem (List.not_mem_nil _)
    · rw [hE] at hlen
      rw [List.length_eq_zero.mp hlen] at hx
      exact absurd hx (List.not_mem_nil _)
  · have hE1 : isEmptyDF df = false := by
      revert hE
      cases isEmptyDF df <;> simp
    have handler : ∀ F : String × Col → String × Col,
        (∀ nc : String × Col, nc.1 ∈ knownDateCols → ∀ x ∈ (F nc).2.cells, dateCellOk x) →
        (∀ nc : String × Col, (F nc).1 = nc.1) →
        cleanTable p name df = ⟨df.cols.map F⟩ →
        ∀ j cn col, (cleanTable p name df).cols.get? j = some (cn, col) →
          cn ∈ knownDateCols → ∀ x ∈ col.cells, dateCellOk x := by
      intro F hok hfst heq j cn col hj hk x hx
      rw [heq] at hj
      simp only [List.get?_map] at hj
      cases hg : df.cols.get? j with
      | none => rw [hg] at hj; exact absurd hj (by simp)
      | some nc0 =>
        rw [hg] at hj
        simp only [Option.map_some'] at hj
        have hF : F nc0 = (cn, col) := Option.some.inj hj
        have hcn : nc0.1 = cn := (hfst nc0).symm.trans (congrArg Prod.fst hF)
        have := hok nc0 (hcn ▸ hk)
        rw [hF] at this
        exact this x hx
    by_cases hH : name.toLower ∈ holidaysHints
    · by_cases hd : "date" ∈ df.cols.map Prod.fst
      · exact handler _ (fun nc hk => normCleanF_date_ok p nc hk)
          (fun nc => by rw [normDateF_fst, cleanColF_fst])
          (cleanTable_eq_holiday_mem p name df hE1 hH hd)
      · exact handler _ (fun nc hk => cleanColF_date_ok p nc hk) (cleanColF_fst p)
          (cleanTable_eq_holiday_not p name df hE1 hH hd)
    · exact handler _ (fun nc hk => cleanColF_date_ok p nc hk) (cleanColF_fst p)
        (cleanTable_eq_plain p name df hE1 hH)

theorem lookupStr_map {β : Type} (l : List (String × DF)) (g : String × DF → β)
    (hnd : (l.map Prod.fst).Nodup) (nt : String × DF) (hm : nt ∈ l) :
    lookupStr (l.map (fun x => (x.1, g x))) nt.1 = some (g nt) := by
  induction l with
  | nil => exact absurd hm (List.not_mem_nil _)
  | cons h t ih =>
    simp only [List.map_cons, List.nodup_cons] at hnd
    rcases List.mem_cons.mp hm with rfl | hmt
    · simp [lookupStr, List.find?]
    · have hne : ¬ (h.1 == nt.1) = true := by
        simp only [beq_iff_eq]
        intro heq
        refine hnd.1 ?hmm
        case hmm =>
          rw [heq]
          exact List.mem_map_of_mem Prod.fst hmt
      have := ih hnd.2 hmt
      simpa [lookupStr, List.find?, hne] using this

theorem filterMap_eq_map_of {α β : Type} (l : List α) (F : α → Option β) (G : α → β)
    (h : ∀ x ∈ l, F x = some (G x)) : l.filterMap F = l.map G := by
  induction l with
  | nil => rfl
  | cons a t ih =>
    rw [List.filterMap_cons, h a (List.mem_cons_self a t), List.map_cons,
      ih (fun x hx => h x (List.mem_cons_of_mem a hx))]

/-- Loading what `save_cleaned` wrote re-reads every table and re-parses
exactly its sidecar-listed date columns. -/
theorem loadCleaned_saveCleaned (p : List Char → Option Int)
    (C : List (String × DF)) (hnd : (C.map Prod.fst).Nodup) :
    loadCleaned p (saveCleaned C).1 (saveCleaned C).2 =
      C.map (fun nt => (nt.1, applyParseDates p (dateColsOf nt.2) (readDF (dumpDF nt.2)))) := by
  unfold loadCleaned saveCleaned
  rw [List.filterMap_map]
  refine filterMap_eq_map_of C _ _ (fun nt hm => ?hpt)
  case hpt =>
    have hl := lookupStr_map C (fun x => dumpDF x.2) hnd nt hm
    simp only [Function.comp_def]
    rw [hl]

/-- The re-loaded table has, at each known date column of the cleaned
table, a timestamp-typed column with the same cells. -/
theorem loaded_date_col (p : List Char → Option Int)
    (hp : ∀ t, p (serTs t) = some t) (name : String) (df : DF) (hwf : wfDF df)
    (j : Nat) (cn : String) (col : Col)
    (hj : (cleanTable p name df).cols.get? j = some (cn, col))
    (hk : cn ∈ knownDateCols) :
    (applyParseDates p (dateColsOf (cleanTable p name df))
        (readDF (dumpDF (cleanTable p name df)))).cols.get? j =
      some (cn, ⟨DType.dtime, col.cells⟩) := by
  have hok : ∀ x ∈ col.cells, dateCellOk x :=
    cleanTable_date_cells p name df hwf j cn col hj hk
  have hmm : (cn, col) ∈ (cleanTable p name df).cols := List.get?_mem hj
  have hdc : cn ∈ dateColsOf (cleanTable p name df) := by
    rw [dateColsOf, List.mem_filter]
    exact ⟨List.mem_map_of_mem Prod.fst hmm, by simp [hk]⟩
  simp only [applyParseDates, readDF, dumpDF, List.map_map, List.get?_map]
  rw [hj]
  simp only [Function.comp_def, Option.map_some']
  rw [if_pos hdc]
  simp only [toDatetimeCol, List.map_map]
  have hcells : col.cells.map (parseCell p ∘ readCellCsv ∘ dumpCell) =
      col.cells.map id := by
    refine map_mem_congr _ _ _ (fun x hx => ?hc)
    case hc => exact roundtrip_cell p hp x (hok x hx)
  rw [hcells, List.map_id]

theorem cleanTables_fst (p : List Char → Option Int) (T : List (String × DF)) :
    (cleanTables p T).map Prod.fst = T.map Prod.fst := by
  rw [cleanTables, List.map_map]
  rfl

/-- C5: round-trip through cleaned-data persistence is lossless for date
typing.  For every mapping `T` (with distinct table names and pandas
well-formed frames) and every date parser `p` inverting the textual
timestamp format, `load_cleaned` applied to the output of
`save_cleaned (clean T)` yields tables with the same names, and at each
known date column of a cleaned table a timestamp-typed column with equal
cell values, because the sidecar lists exactly the columns to re-parse. -/
theorem C5_roundtrip (p : List Char → Option Int) (hp : ∀ t, p (serTs t) = some t)
    (T : List (String × DF)) (hnd : (T.map Prod.fst).Nodup)
    (hwf : ∀ nt ∈ T, wfDF nt.2) :
    (loadCleaned p (saveCleaned (cleanTables p T)).1
        (saveCleaned (cleanTables p T)).2).map Prod.fst =
      (cleanTables p T).map Prod.fst ∧
    ∀ i n df, (cleanTables p T).get? i = some (n, df) →
      ∀ j cn col, df.cols.get? j = some (cn, col) → cn ∈ knownDateCols →
        ∃ df', (loadCleaned p (saveCleaned (cleanTables p T)).1
            (saveCleaned (cleanTables p T)).2).get? i = some (n, df') ∧
          df'.cols.get? j = some (cn, ⟨DType.dtime, col.cells⟩) := by
  have hndC : ((cleanTables p T).map Prod.fst).Nodup := by
    rw [cleanTables_fst]
    exact hnd
  have hL := loadCleaned_saveCleaned p (cleanTables p T) hndC
  constructor
  · rw [hL, List.map_map]
    rfl
  · intro i n df hi j cn col hj hk
    refine ⟨applyParseDates p (dateColsOf df) (readDF (dumpDF df)), ?hget, ?hcol⟩
    case hget =>
      rw [hL]
      simp only [List.get?_map]
      rw [hi]
      rfl
    case hcol =>
      have hTi : ∃ nt0, T.get? i = some nt0 ∧ n = nt0.1 ∧
          df = cleanTable p nt0.1 nt0.2 := by
        rw [cleanTables] at hi
        simp only [List.get?_map] at hi
        cases hg : T.get? i with
        | none => rw [hg] at hi; exact absurd hi (by simp)
        | some nt0 =>
          rw [hg] at hi
          simp only [Option.map_some'] at hi
          have := Option.some.inj hi
          exact ⟨nt0, rfl, (congrArg Prod.fst this).symm,
            (congrArg Prod.snd this).symm⟩
      obtain ⟨nt0, hg, hn, hdf⟩ := hTi
      have hwf0 : wfDF nt0.2 := hwf nt0 (List.get?_mem hg)
      subst hdf
      exact loaded_date_col p hp nt0.1 nt0.2 hwf0 j cn col hj hk

/-- Concrete input for the round-trip witness: one table with a known
date column holding a parseable value, an unparseable value and a
non-string cell, plus an unrelated text column. -/
def c5T0 : List (String × DF) :=
  [("orders", ⟨[("order_approved_at",
      ⟨DType.obj, [Cell.str ['5'], Cell.str ['x', '-'], Cell.other]⟩),
    ("order_status", ⟨DType.obj, [Cell.str [' ', 'a'], Cell.str ['b'], Cell.nullv]⟩)]⟩)]

/-- Witness for C5 at a concrete table mapping and the model parser. -/
theorem C5_roundtrip_witness :
    (loadCleaned parseChars (saveCleaned (cleanTables parseChars c5T0)).1
        (saveCleaned (cleanTables parseChars c5T0)).2).map Prod.fst =
      (cleanTables parseChars c5T0).map Prod.fst ∧
    ∀ i n df, (cleanTables parseChars c5T0).get? i = some (n, df) →
      ∀ j cn col, df.cols.get? j = some (cn, col) → cn ∈ knownDateCols →
        ∃ df', (loadCleaned parseChars (saveCleaned (cleanTables parseChars c5T0)).1
            (saveCleaned (cleanTables parseChars c5T0)).2).get? i = some (n, df') ∧
          df'.cols.get? j = some (cn, ⟨DType.dtime, col.cells⟩) :=
  C5_roundtrip parseChars parse_serTs c5T0 (by decide) (by decide)

/-! ## Extractor (`src/extract.py`): public holidays feed -/

/-- One raw holiday record of the upstream JSON feed: the `date` field as
an optional textual value, the other consumed fields as cells (`types`
and `counties`, present upstream, are never read and thus not modelled). -/
structure RawHoliday where
  date : Option (List Char)
  localName : Cell
  hname : Cell
  countryCode : Cell
  fixedB : Cell
  globalB : Cell
  launchYear : Cell
deriving DecidableEq

/-- Outcome of one HTTP GET, as seen by `_fetch_public_holidays_json`:
either a response with a status code and a decoded body (`none` when the
body fails to decode as JSON), or a network error. -/
inductive NetResult where
  | resp (code : Nat) (body : Option (List RawHoliday))
  | netErr
deriving DecidableEq

/-- `_fetch_public_holidays_json`: empty URL, network error, non-200
status and decode failure all yield `none`. -/
def fetchPublicHolidaysJson (net : String → NetResult) (url : String) :
    Option (List RawHoliday) :=
  if url = "" then none
  else
    match net url with
    | NetResult.netErr => none
    | NetResult.resp code body => if code ≠ 200 then none else body

/-- The fixed holiday output schema, in order. -/
def holidayColNames : List String :=
  ["date", "localName", "name", "countryCode", "fixed", "global", "launchYear"]

/-- The empty but schema-correct holidays frame (`date` timestamp-typed,
the remaining columns object-typed). -/
def emptyHolidaysDF : DF :=
  ⟨[("date", ⟨DType.dtime, []⟩), ("localName", ⟨DType.obj, []⟩),
    ("name", ⟨DType.obj, []⟩), ("countryCode", ⟨DType.obj, []⟩),
    ("fixed", ⟨DType.obj, []⟩), ("global", ⟨DType.obj, []⟩),
    ("launchYear", ⟨DType.obj, []⟩)]⟩

/-- `pd.to_datetime(x.get("date"), errors="coerce")` on one raw record:
an absent or unparseable value coerces to the null marker. -/
def rawDateCell (p : List Char → Option Int) (r : RawHoliday) : Cell :=
  match r.date with
  | none => Cell.nullv
  | some s =>
    match p s with
    | some t => Cell.ts t
    | none => Cell.nullv

/-- `_normalize_public_holidays`: `None` or an empty list yields the
empty schema-correct frame; otherwise exactly the seven columns in fixed
order, with `date` timestamp-typed. -/
def normalizePublicHolidays (p : List Char → Option Int)
    (data : Option (List RawHoliday)) : DF :=
  match data with
  | none => emptyHolidaysDF
  | some [] => emptyHolidaysDF
  | some l =>
    ⟨[("date", ⟨DType.dtime, l.map (rawDateCell p)⟩),
      ("localName", ⟨DType.obj, l.map RawHoliday.localName⟩),
      ("name", ⟨DType.obj, l.map RawHoliday.hname⟩),
      ("countryCode", ⟨DType.obj, l.map RawHoliday.countryCode⟩),
      ("fixed", ⟨DType.obj, l.map RawHoliday.fixedB⟩),
      ("global", ⟨DType.obj, l.map RawHoliday.globalB⟩),
      ("launchYear", ⟨DType.obj, l.map RawHoliday.launchYear⟩)]⟩

/-- `base_url.rstrip("/")`. -/
def rstripSlash (s : String) : String :=
  String.mk (((s.data.reverse).dropWhile (fun c => c = '/')).reverse)

/-- `get_public_holidays`: build the URL, fetch, normalize. -/
def getPublicHolidays (p : List Char → Option Int) (net : String → NetResult)
    (baseUrl year country : String) : DF :=
  normalizePublicHolidays p
    (fetchPublicHolidaysJson net (rstripSlash baseUrl ++ "/" ++ year ++ "/" ++ country))

/-- C4: every holidays fetch returns a table with exactly the seven
columns `date, localName, name, countryCode, fixed, global, launchYear`
in that order, the `date` column timestamp-typed with every cell either a
timestamp or the null marker (invalid values coerced, never raised); and
whenever the fetch fails (empty URL, network error, non-200 status or
decode failure), the result is exactly the empty schema-correct frame. -/
theorem C4_holidays_schema (p : List Char → Option Int) (net : String → NetResult)
    (baseUrl year country : String) :
    (getPublicHolidays p net baseUrl year country).cols.map Prod.fst = holidayColNames ∧
    (∃ dcol rest, (getPublicHolidays p net baseUrl year country).cols =
        ("date", dcol) :: rest ∧ dcol.dtype = DType.dtime ∧
        ∀ x ∈ dcol.cells, dateCellOk x) ∧
    (fetchPublicHolidaysJson net
        (rstripSlash baseUrl ++ "/" ++ year ++ "/" ++ country) = none →
      getPublicHolidays p net baseUrl year country = emptyHolidaysDF) := by
  rw [getPublicHolidays]
  cases hf : fetchPublicHolidaysJson net
      (rstripSlash baseUrl ++ "/" ++ year ++ "/" ++ country) with
  | none =>
    refine ⟨rfl, ⟨⟨DType.dtime, []⟩, _, rfl, rfl, ?hcells⟩, fun _ => rfl⟩
    case hcells => intro x hx; exact absurd hx (List.not_mem_nil _)
  | some l =>
    cases l with
    | nil =>
      refine ⟨rfl, ⟨⟨DType.dtime, []⟩, _, rfl, rfl, ?hcells2⟩, fun _ => rfl⟩
      case hcells2 => intro x hx; exact absurd hx (List.not_mem_nil _)
    | cons r rs =>
      refine ⟨rfl, ⟨⟨DType.dtime, (r :: rs).map (rawDateCell p)⟩, _, rfl, rfl, ?hc⟩,
        fun hcon => absurd hcon (by simp)⟩
      case hc =>
        intro x hx
        rw [List.mem_map] at hx
        obtain ⟨r0, _, rfl⟩ := hx
        rw [rawDateCell]
        cases r0.date with
        | none => exact Or.inl rfl
        | some s =>
          cases hp : p s with
          | none => exact Or.inl (by simp [hp])
          | some t => exact Or.inr ⟨t, by simp [hp]⟩

/-- Witness for C4 at a concrete network and URL. -/
theorem C4_holidays_schema_witness :
    (getPublicHolidays parseChars (fun _ => NetResult.netErr)
        "https://h" "2017" "BR").cols.map Prod.fst = holidayColNames ∧
    (∃ dcol rest, (getPublicHolidays parseChars (fun _ => NetResult.netErr)
        "https://h" "2017" "BR").cols = ("date", dcol) :: rest ∧
        dcol.dtype = DType.dtime ∧ ∀ x ∈ dcol.cells, dateCellOk x) ∧
    (fetchPublicHolidaysJson (fun _ => NetResult.netErr)
        (rstripSlash "https://h" ++ "/" ++ "2017" ++ "/" ++ "BR") = none →
      getPublicHolidays parseChars (fun _ => NetResult.netErr)
        "https://h" "2017" "BR" = emptyHolidaysDF) :=
  C4_holidays_schema parseChars (fun _ => NetResult.netErr) "https://h" "2017" "BR"

/-! ## Extractor: `extract` -/

/-- Python dict assignment: overwrite the entry in place when the key is
present, append otherwise. -/
def dictSet {α : Type} (l : List (String × α)) (k : String) (v : α) :
    List (String × α) :=
  if l.any (fun nc => nc.1 == k) then
    l.map (fun nc => if nc.1 = k then (k, v) else nc)
  else l ++ [(k, v)]

theorem find?_overwrite {α : Type} (k : String) (v : α) (l : List (String × α)) :
    (l.map (fun nc => if nc.1 = k then (k, v) else nc)).find? (fun nc => nc.1 == k) =
      if l.any (fun nc => nc.1 == k) then some (k, v) else none := by
  induction l with
  | nil => rfl
  | cons h t ih =>
    rw [List.map_cons]
    by_cases hh : h.1 = k
    · rw [if_pos hh]
      rw [List.find?_cons_of_pos _ (by simp)]
      rw [if_pos (by simp [List.any_cons, hh])]
    · rw [if_neg hh]
      rw [List.find?_cons_of_neg _ (by simp [hh])]
      rw [ih]
      have hcond : ((h :: t).any (fun nc => nc.1 == k)) = (t.any (fun nc => nc.1 == k)) := by
        simp [List.any_cons, hh]
      rw [hcond]

theorem lookupStr_dictSet {α : Type} (l : List (String × α)) (k : String) (v : α) :
    lookupStr (dictSet l k v) k = some v := by
  by_cases hany : (l.any (fun nc => nc.1 == k)) = true
  · rw [dictSet, if_pos hany, lookupStr, find?_overwrite, if_pos hany]
    rfl
  · rw [dictSet, if_neg hany, lookupStr, List.find?_append]
    have hnone : l.find? (fun nc => nc.1 == k) = none := by
      rw [List.find?_eq_none]
      intro x hx hxk
      refine absurd ?hany2 hany
      case hany2 =>
        rw [List.any_eq_true]
        exact ⟨x, hx, hxk⟩
    rw [hnone]
    rw [List.find?_cons_of_pos _ (by simp)]
    rfl

/-- Read every CSV of the table-to-file mapping; a missing file raises
(`MissingSourceError`), modelled as an error outcome.  The reading of one
file, including `read_csv` type inference and known-timestamp parsing, is
abstracted as the external function `readF`. -/
def readTables (readF : String → Option DF) :
    List (String × String) → Except Unit (List (String × DF))
  | [] => Except.ok []
  | (t, f) :: rest =>
    match readF f with
    | none => Except.error ()
    | some df =>
      match readTables readF rest with
      | Except.error e => Except.error e
      | Except.ok l => Except.ok ((t, df) :: l)

/-- The `public_holidays` value chosen by `extract`: fetched when a URL
is provided, the empty schema-correct frame otherwise. -/
def holidaysFor (p : List Char → Option Int) (net : String → NetResult)
    (url : Option String) : DF :=
  match url with
  | some u => getPublicHolidays p net u "2017" "BR"
  | none => normalizePublicHolidays p none

/-- `extract`: read all mapped CSVs, then add the `public_holidays`
table. -/
def extractModel (p : List Char → Option Int) (net : String → NetResult)
    (readF : String → Option DF) (tbl2csv : List (String × String))
    (url : Option String) : Except Unit (List (String × DF)) :=
  match readTables readF tbl2csv with
  | Except.error e => Except.error e
  | Except.ok r => Except.ok (dictSet r "public_holidays" (holidaysFor p net url))

/-- C9: every successful `extract` result contains the key
`public_holidays`, holding the fetched table when a URL was given and
the empty 7-column schema-correct holidays frame when no URL was given. -/
theorem C9_extract_holidays (p : List Char → Option Int) (net : String → NetResult)
    (readF : String → Option DF) (tbl2csv : List (String × String))
    (url : Option String) (R : List (String × DF))
    (h : extractModel p net readF tbl2csv url = Except.ok R) :
    lookupStr R "public_holidays" = some (holidaysFor p net url) ∧
    (url = none → lookupStr R "public_holidays" = some emptyHolidaysDF) := by
  rw [extractModel] at h
  cases hr : readTables readF tbl2csv with
  | error e => rw [hr] at h; exact absurd h (by simp)
  | ok r =>
    rw [hr] at h
    have hR : R = dictSet r "public_holidays" (holidaysFor p net url) :=
      (Except.ok.inj h).symm
    subst hR
    refine ⟨lookupStr_dictSet r _ _, fun hu => ?hnone⟩
    case hnone =>
      subst hu
      exact lookupStr_dictSet r _ _

/-- Witness for C9: a successful extraction with no holidays URL. -/
theorem C9_extract_holidays_witness :
    lookupStr [("public_holidays", emptyHolidaysDF)] "public_holidays" =
      some (holidaysFor parseChars (fun _ => NetResult.netErr) none) ∧
    ((none : Option String) = none →
      lookupStr [("public_holidays", emptyHolidaysDF)] "public_holidays" =
        some emptyHolidaysDF) :=
  C9_extract_holidays parseChars (fun _ => NetResult.netErr) (fun _ => none) [] none
    [("public_holidays", emptyHolidaysDF)] rfl

/-! ## Loader (`src/load.py`)

The relational store is modelled by the names of its committed tables
and views.  Failures of individual SQL statements (disk errors,
malformed data, ...) are modelled by oracles `tf` (the write of a given
table fails) and `vf` (the creation of a given view fails).  `load`
writes each table inside its own `engine.begin()` transaction, then
`create_compat_views` runs all view statements inside one
`engine.begin()` transaction: a transaction applies all of its
statements or, when one fails, none. -/

structure Store where
  tables : List String
  views : List String
deriving DecidableEq

def insertName (l : List String) (n : String) : List String :=
  if n ∈ l then l else l ++ [n]

/-- `TABLES` from `src/config.py`: canonical name to physical name. -/
def tablesConfig : List (String × String) :=
  [("orders", "olist_orders"), ("order_items", "olist_order_items"),
   ("products", "olist_products"), ("customers", "olist_customers"),
   ("payments", "olist_order_payments"), ("sellers", "olist_sellers"),
   ("reviews", "olist_order_reviews"), ("geolocation", "olist_geolocation"),
   ("category_tr", "product_category_name_translation"),
   ("public_holidays", "public_holidays")]

/-- The views created by `create_compat_views`, in statement order: one
canonical view per non-auxiliary table, then the six business views. -/
def compatViewNames : List String :=
  ((tablesConfig.filter
      (fun ct => ¬ (ct.1 = "category_tr" ∨ ct.1 = "public_holidays"))).map Prod.fst) ++
  ["product_category_en", "order_item_revenue", "delivered_orders",
   "per_order_revenue", "per_order_with_delivery", "delivered_monthly_revenue"]

def addViews (views : List String) : List String :=
  compatViewNames.foldl insertName views

/-- `create_compat_views`: all `CREATE VIEW IF NOT EXISTS` statements in
one transaction; if any fails the transaction rolls back and the store
is unchanged. -/
def createCompatViews (vf : String → Bool) (s : Store) : Store × Bool :=
  if compatViewNames.any vf then (s, false)
  else ({ s with views := addViews s.views }, true)

/-- The table-writing loop of `load`: each `to_sql(..., if_exists=
"replace")` runs in its own transaction; the first failure aborts the
loop (the exception propagates), leaving the already committed tables in
place. -/
def loadTablesGo (tf : String → Bool) :
    List (String × DF) → Store → Store × Bool
  | [], s => (s, true)
  | (n, _) :: rest, s =>
    if tf n then (s, false)
    else loadTablesGo tf rest { s with tables := insertName s.tables n }

inductive LoadErr where
  | invalidArgs
  | sqlErr
deriving DecidableEq

/-- The two runtime shapes `load` inspects (`Engine` / `dict`), plus
anything else. -/
inductive LoadArg where
  | eng
  | tables (t : List (String × DF))
  | otherArg
deriving DecidableEq

/-- The argument-order auto-detection of `load`: `(Engine, dict)` is
swapped, `(dict, Engine)` is taken as-is, anything else raises. -/
def loadDispatch : LoadArg → LoadArg → Except LoadErr (List (String × DF))
  | LoadArg.eng, LoadArg.tables t => Except.ok t
  | LoadArg.tables t, LoadArg.eng => Except.ok t
  | _, _ => Except.error LoadErr.invalidArgs

/-- Body of `load` after argument dispatch: write all tables, then
create the compatibility views. -/
def loadRun (tf vf : String → Bool) (t : List (String × DF)) (s : Store) :
    Store × Option LoadErr :=
  let r1 := loadTablesGo tf t s
  if r1.2 = false then (r1.1, some LoadErr.sqlErr)
  else
    let r2 := createCompatViews vf r1.1
    if r2.2 = false then (r2.1, some LoadErr.sqlErr) else (r2.1, none)

/-- `load`: dispatch on the two arguments' shapes, then run. -/
def loadModel (tf vf : String → Bool) (a b : LoadArg) (s : Store) :
    Store × Option LoadErr :=
  match loadDispatch a b with
  | Except.error e => (s, some e)
  | Except.ok t => loadRun tf vf t s

theorem loadTablesGo_views (tf : String → Bool) (t : List (String × DF)) (s : Store) :
    (loadTablesGo tf t s).1.views = s.views := by
  induction t generalizing s with
  | nil => rfl
  | cons nt rest ih =>
    obtain ⟨n, df⟩ := nt
    by_cases h : tf n = true
    · simp [loadTablesGo, h]
    · simp [loadTablesGo, h, ih]

theorem loadTablesGo_ok (tf : String → Bool) (t : List (String × DF)) (s : Store) :
    (loadTablesGo tf t s).2 = true →
      (loadTablesGo tf t s).1 =
        ⟨(t.map Prod.fst).foldl insertName s.tables, s.views⟩ := by
  induction t generalizing s with
  | nil => intro _; rfl
  | cons nt rest ih =>
    obtain ⟨n, df⟩ := nt
    by_cases h : tf n = true
    · simp [loadTablesGo, h]
    · intro hok
      simp only [loadTablesGo, h, if_false, Bool.false_eq_true, if_neg] at hok ⊢
      rw [ih _ hok]
      rfl

/-- C1 counterexample: with two tables to load and the second table's
write failing, the store ends with the first table written and no views
created — neither the untouched store nor the fully rebuilt one.  The
claim that any failure leaves no partially-rebuilt state (all tables and
views, or none) is false at this input. -/
theorem C1_counterexample :
    ¬ ((loadModel (fun n => n == "b") (fun _ => false)
          (LoadArg.tables [("a", DF.mk []), ("b", DF.mk [])]) LoadArg.eng
          ⟨[], []⟩).1 = (⟨[], []⟩ : Store) ∨
       (loadModel (fun n => n == "b") (fun _ => false)
          (LoadArg.tables [("a", DF.mk []), ("b", DF.mk [])]) LoadArg.eng
          ⟨[], []⟩).1 =
         ⟨(([("a", DF.mk []), ("b", DF.mk [])].map Prod.fst).foldl insertName []),
          addViews []⟩) := by
  decide

/-- C1 amended: only view creation is one all-or-nothing transaction —
after any `load` call the view set is either untouched or extended with
all compatibility views; table writes are per-table transactions, and on
overall success the store holds all tables and all views. -/
theorem C1_amended_views_atomic (tf vf : String → Bool)
    (t : List (String × DF)) (s : Store) :
    ((loadModel tf vf (LoadArg.tables t) LoadArg.eng s).1.views = s.views ∨
     (loadModel tf vf (LoadArg.tables t) LoadArg.eng s).1.views = addViews s.views) ∧
    ((loadModel tf vf (LoadArg.tables t) LoadArg.eng s).2 = none →
      (loadModel tf vf (LoadArg.tables t) LoadArg.eng s).1 =
        ⟨(t.map Prod.fst).foldl insertName s.tables, addViews s.views⟩) := by
  have hdisp : loadModel tf vf (LoadArg.tables t) LoadArg.eng s = loadRun tf vf t s := rfl
  rw [hdisp]
  simp only [loadRun]
  cases hlt : loadTablesGo tf t s with
  | mk s1 ok1 =>
    have hv1 : s1.views = s.views := by
      have := loadTablesGo_views tf t s
      rw [hlt] at this
      exact this
    cases ok1 with
    | false => exact ⟨Or.inl hv1, by intro h; exact absurd h (by simp)⟩
    | true =>
      by_cases hvf : compatViewNames.any vf = true
      · have hc : createCompatViews vf s1 = (s1, false) := by
          rw [createCompatViews, if_pos hvf]
        simp only [hc]
        exact ⟨Or.inl hv1, by intro h; exact absurd h (by simp)⟩
      · have hc : createCompatViews vf s1 =
            ({ s1 with views := addViews s1.views }, true) := by
          rw [createCompatViews, if_neg hvf]
        simp only [hc]
        refine ⟨Or.inr (by simp [hv1]), fun _ => ?hfull⟩
        case hfull =>
          have hs1 : s1 = ⟨(t.map Prod.fst).foldl insertName s.tables, s.views⟩ := by
            have := loadTablesGo_ok tf t s
            rw [hlt] at this
            exact this rfl
          simp [hs1]

/-- Witness for the amended C1 at concrete oracles, tables and store. -/
theorem C1_amended_views_atomic_witness :
    ((loadModel (fun n => n == "b") (fun _ => false)
        (LoadArg.tables [("a", DF.mk []), ("b", DF.mk [])]) LoadArg.eng
        ⟨[], []⟩).1.views = [] ∨
     (loadModel (fun n => n == "b") (fun _ => false)
        (LoadArg.tables [("a", DF.mk []), ("b", DF.mk [])]) LoadArg.eng
        ⟨[], []⟩).1.views = addViews []) ∧
    ((loadModel (fun n => n == "b") (fun _ => false)
        (LoadArg.tables [("a", DF.mk []), ("b", DF.mk [])]) LoadArg.eng
        ⟨[], []⟩).2 = none →
      (loadModel (fun n => n == "b") (fun _ => false)
        (LoadArg.tables [("a", DF.mk []), ("b", DF.mk [])]) LoadArg.eng
        ⟨[], []⟩).1 =
        ⟨(([("a", DF.mk []), ("b", DF.mk [])].map Prod.fst).foldl insertName []),
         addViews []⟩) :=
  C1_amended_views_atomic (fun n => n == "b") (fun _ => false)
    [("a", DF.mk []), ("b", DF.mk [])] ⟨[], []⟩

/-- C6: the loader accepts its two arguments in either order, producing
identical results, and fails with the invalid-arguments error whenever
the two arguments are not a table mapping paired with a store handle. -/
theorem C6_load_arg_order (tf vf : String → Bool) (t : List (String × DF)) (s : Store) :
    loadModel tf vf LoadArg.eng (LoadArg.tables t) s =
      loadModel tf vf (LoadArg.tables t) LoadArg.eng s ∧
    ∀ a b : LoadArg,
      (∀ t0, ¬ (a = LoadArg.eng ∧ b = LoadArg.tables t0) ∧
             ¬ (a = LoadArg.tables t0 ∧ b = LoadArg.eng)) →
      loadModel tf vf a b s = (s, some LoadErr.invalidArgs) := by
  refine ⟨rfl, fun a b h => ?hbad⟩
  case hbad =>
    cases a with
    | eng =>
      cases b with
      | eng => rfl
      | tables t0 => exact absurd ⟨rfl, rfl⟩ (h t0).1
      | otherArg => rfl
    | tables t0 =>
      cases b with
      | eng => exact absurd ⟨rfl, rfl⟩ (h t0).2
      | tables t1 => rfl
      | otherArg => rfl
    | otherArg => cases b <;> rfl

/-- Witness for C6 at concrete oracles, tables and store. -/
theorem C6_load_arg_order_witness :
    loadModel (fun _ => false) (fun _ => false) LoadArg.eng
        (LoadArg.tables [("a", DF.mk [])]) ⟨[], []⟩ =
      loadModel (fun _ => false) (fun _ => false)
        (LoadArg.tables [("a", DF.mk [])]) LoadArg.eng ⟨[], []⟩ ∧
    ∀ a b : LoadArg,
      (∀ t0, ¬ (a = LoadArg.eng ∧ b = LoadArg.tables t0) ∧
             ¬ (a = LoadArg.tables t0 ∧ b = LoadArg.eng)) →
      loadModel (fun _ => false) (fun _ => false) a b ⟨[], []⟩ =
        (⟨[], []⟩, some LoadErr.invalidArgs) :=
  C6_load_arg_order (fun _ => false) (fun _ => false) [("a", DF.mk [])] ⟨[], []⟩

/-! ## Query runner (`src/transform.py`): statement splitting

The statement separator regex is `;` followed by `\s*` and then either a
line comment ending in a newline, a newline, or end of input.  `sepAlt`
is the trailing alternation, `commentEnd` the `--[^\n]*\r?\n` tail, and
`sepWs` the greedy, backtracking `\s*` (longest whitespace prefix first,
as a backtracking regex engine matches it). -/

def commentEnd : List Char → Option (List Char)
  | [] => none
  | c :: rest => if c = '\n' then some rest else commentEnd rest

def sepAlt : List Char → Option (List Char)
  | [] => some []
  | c :: [] => if c = '\n' then some [] else none
  | c :: c2 :: rest2 =>
    if c = '-' then (if c2 = '-' then commentEnd rest2 else none)
    else if c = '\r' then (if c2 = '\n' then some rest2 else none)
    else if c = '\n' then some (c2 :: rest2)
    else none

def sepWs : List Char → Option (List Char)
  | [] => sepAlt []
  | c :: rest =>
    if isWs c then
      match sepWs rest with
      | some r => some r
      | none => sepAlt (c :: rest)
    else sepAlt (c :: rest)

/-- `re.split` over the separator: scan left to right, end the current
fragment at every separator match.  Fuel is the input length (each step
consumes at least one character). -/
def splitBySemis (fuel : Nat) (acc : List Char) (cs : List Char) : List (List Char) :=
  match fuel, cs with
  | _, [] => [acc.reverse]
  | 0, rest => [acc.reverse ++ rest]
  | fuelN + 1, c :: rest =>
    if c = ';' then
      match sepWs rest with
      | some rem => acc.reverse :: splitBySemis fuelN [] rem
      | none => splitBySemis fuelN (c :: acc) rest
    else splitBySemis fuelN (c :: acc) rest

/-! ### Comment stripping (`_strip_sql_comments`) -/

def findBlockEnd : List Char → Option (List Char)
  | '*' :: '/' :: rest => some rest
  | _ :: rest => findBlockEnd rest
  | [] => none

/-- Remove `/* ... */` block comments (non-greedy: to the first `*/`);
an unterminated opener never matches and is left in place. -/
def stripBlock (fuel : Nat) (cs : List Char) : List Char :=
  match fuel, cs with
  | _, [] => []
  | 0, rest => rest
  | fuelN + 1, '/' :: '*' :: rest =>
    match findBlockEnd rest with
    | some rem => stripBlock fuelN rem
    | none => '/' :: '*' :: rest
  | fuelN + 1, c :: rest => c :: stripBlock fuelN rest

/-- Remove `--` line comments up to (excluding) the line end. -/
def stripLine (fuel : Nat) (cs : List Char) : List Char :=
  match fuel, cs with
  | _, [] => []
  | 0, rest => rest
  | fuelN + 1, '-' :: '-' :: rest =>
    stripLine fuelN (rest.dropWhile (fun c => ¬ (c = '\n')))
  | fuelN + 1, c :: rest => c :: stripLine fuelN rest

def stripSqlComments (cs : List Char) : List Char :=
  stripLine (stripBlock cs.length cs).length (stripBlock cs.length cs)

/-! ### Statement classification -/

def lowerList (l : List Char) : List Char := l.map Char.toLower

def startersSql : List (List Char) :=
  ["select".toList, "with".toList, "create".toList, "drop".toList,
   "insert".toList, "update".toList, "delete".toList, "alter".toList,
   "pragma".toList, "vacuum".toList]

/-- `_looks_like_sql`: lexically starts with one of the ten keywords. -/
def looksLikeSql (stmt : List Char) : Bool :=
  if stmt = [] then false
  else startersSql.any (fun st => st.isPrefixOf (lowerList (dropWs stmt)))

/-- `_is_select_like`: lexically starts with `select` or `with`. -/
def isSelectLike (stmt : List Char) : Bool :=
  ("select".toList.isPrefixOf (lowerList (dropWs stmt))) ||
  ("with".toList.isPrefixOf (lowerList (dropWs stmt)))

/-- `_normalize_stmt`: strip comments and whitespace, keep only
SQL-looking fragments. -/
def normalizeStmt (stmt : List Char) : List Char :=
  if stmt = [] then []
  else
    let cleaned := pstrip (stripSqlComments stmt)
    if looksLikeSql cleaned then cleaned else []

/-- `_split_sql_statements`: split on statement separators, drop blank
fragments, normalize, drop what normalization rejected. -/
def splitSqlStatements (sql : List Char) : List (List Char) :=
  let parts := (splitBySemis sql.length [] sql).filter (fun s => ¬ (pstrip s = []))
  (parts.map normalizeStmt).filter (fun s => ¬ (s = []))

/-! ### The `CREATE VIEW` name regex (`_VIEW_RE.search`) -/

/-- Case-insensitive literal match, returning the remaining input. -/
def eatCI (pat : List Char) (cs : List Char) : Option (List Char) :=
  match pat, cs with
  | [], rest => some rest
  | _ :: _, [] => none
  | pc :: ps, c :: rest => if c.toLower = pc.toLower then eatCI ps rest else none

/-- `\s+`: one or more whitespace characters, matched greedily. -/
def eatWs1 (cs : List Char) : Option (List Char) :=
  match cs with
  | [] => none
  | c :: rest => if isWs c then some (rest.dropWhile isWs) else none

def isWordChar (c : Char) : Bool := c.isAlphanum || c = '_'

/-- `([A-Za-z_][\w]*)\s+as\s+`: the captured view name. -/
def nameAs (cs : List Char) : Option (List Char) :=
  match cs with
  | [] => none
  | c :: rest =>
    if c.isAlpha || c = '_' then
      match eatWs1 (rest.dropWhile isWordChar) with
      | none => none
      | some r2 =>
        match eatCI "as".toList r2 with
        | none => none
        | some r3 =>
          match eatWs1 r3 with
          | none => none
          | some _ => some (c :: rest.takeWhile isWordChar)
    else none

/-- `if\s+not\s+exists\s+`. -/
def ifneGroup (cs : List Char) : Option (List Char) :=
  match eatCI "if".toList cs with
  | none => none
  | some r1 =>
    match eatWs1 r1 with
    | none => none
    | some r2 =>
      match eatCI "not".toList r2 with
      | none => none
      | some r3 =>
        match eatWs1 r3 with
        | none => none
        | some r4 =>
          match eatCI "exists".toList r4 with
          | none => none
          | some r5 => eatWs1 r5

/-- After `view\s+`: optional `if not exists` group (with backtracking,
as the regex engine skips the group when the rest fails), then the name. -/
def afterView (cs : List Char) : Option (List Char) :=
  match ifneGroup cs with
  | some r => (nameAs r).orElse (fun _ => nameAs cs)
  | none => nameAs cs

/-- Try the full `_VIEW_RE` at this position. -/
def matchViewAt (cs : List Char) : Option (List Char) :=
  match eatCI "create".toList cs with
  | none => none
  | some r1 =>
    match eatWs1 r1 with
    | none => none
    | some r2 =>
      let v1 :=
        match eatCI "tempview".toList r2 with
        | none => none
        | some r =>
          match eatWs1 r with
          | none => none
          | some r3 => afterView r3
      let v2 :=
        match eatCI "temporary".toList r2 with
        | none => none
        | some r =>
          match eatWs1 r with
          | none => none
          | some r3 =>
            match eatCI "view".toList r3 with
            | none => none
            | some r4 =>
              match eatWs1 r4 with
              | none => none
              | some r5 => afterView r5
      let v3 :=
        match eatCI "view".toList r2 with
        | none => none
        | some r =>
          match eatWs1 r with
          | none => none
          | some r3 => afterView r3
      (v1.orElse (fun _ => v2)).orElse (fun _ => v3)

/-- `re.search`: try the pattern at every position, left to right. -/
def searchView : List Char → Option (List Char)
  | [] => none
  | c :: rest =>
    match matchViewAt (c :: rest) with
    | some nm => some nm
    | none => searchView rest

/-- `_extract_created_view_name`. -/
def extractCreatedViewName (stmt : List Char) : Option (List Char) :=
  searchView stmt

/-! ### Separator-boundary lemmas -/

theorem commentEnd_spec (rest rem : List Char) (h : commentEnd rest = some rem) :
    ∃ pre, rest = pre ++ '\n' :: rem := by
  induction rest with
  | nil => exact absurd h (by simp [commentEnd])
  | cons c r ih =>
    by_cases hc : c = '\n'
    · subst hc
      rw [commentEnd, if_pos rfl] at h
      exact ⟨[], by rw [Option.some.inj h]; rfl⟩
    · rw [commentEnd, if_neg hc] at h
      obtain ⟨pre, hpre⟩ := ih h
      exact ⟨c :: pre, by rw [List.cons_append, hpre]⟩

theorem sepAlt_spec (s rem : List Char) (h : sepAlt s = some rem) :
    ∃ c, s = c ++ rem ∧ (rem = [] ∨ c.getLast? = some '\n') := by
  cases s with
  | nil =>
    rw [sepAlt] at h
    have hrem : rem = [] := (Option.some.inj h).symm
    subst hrem
    exact ⟨[], rfl, Or.inl rfl⟩
  | cons ch rest =>
    cases rest with
    | nil =>
      rw [sepAlt] at h
      by_cases h1 : ch = '\n'
      · subst h1
        rw [if_pos rfl] at h
        have hrem : rem = [] := (Option.some.inj h).symm
        subst hrem
        exact ⟨['\n'], rfl, Or.inr rfl⟩
      · rw [if_neg h1] at h
        exact absurd h (by simp)
    | cons c2 r2 =>
      rw [sepAlt] at h
      by_cases h1 : ch = '-'
      · subst h1
        rw [if_pos rfl] at h
        by_cases h2 : c2 = '-'
        · subst h2
          rw [if_pos rfl] at h
          obtain ⟨pre, hpre⟩ := commentEnd_spec r2 rem h
          refine ⟨('-' :: '-' :: pre) ++ ['\n'], ?heq, Or.inr ?hlast⟩
          case heq => simp [hpre]
          case hlast => exact List.getLast?_concat _
        · rw [if_neg h2] at h
          exact absurd h (by simp)
      · rw [if_neg h1] at h
        by_cases h2 : ch = '\r'
        · subst h2
          rw [if_pos rfl] at h
          by_cases h3 : c2 = '\n'
          · subst h3
            rw [if_pos rfl] at h
            refine ⟨['\r', '\n'], ?heq2, Or.inr rfl⟩
            case heq2 =>
              rw [Option.some.inj h]
              rfl
          · rw [if_neg h3] at h
            exact absurd h (by simp)
        · rw [if_neg h2] at h
          by_cases h3 : ch = '\n'
          · subst h3
            rw [if_pos rfl] at h
            refine ⟨['\n'], ?heq3, Or.inr rfl⟩
            case heq3 =>
              rw [Option.some.inj h]
              rfl
          · rw [if_neg h3] at h
            exact absurd h (by simp)

/-- Every separator match ends right after a line break, or consumes the
whole remaining input. -/
theorem sepWs_spec (t rem : List Char) (h : sepWs t = some rem) :
    ∃ c, t = c ++ rem ∧ (rem = [] ∨ c.getLast? = some '\n') := by
  induction t with
  | nil => exact sepAlt_spec [] rem h
  | cons ch rest ih =>
    rw [sepWs] at h
    by_cases hws : isWs ch = true
    · rw [if_pos hws] at h
      cases h2 : sepWs rest with
      | some r =>
        rw [h2] at h
        have hr : r = rem := Option.some.inj h
        subst hr
        obtain ⟨c', hc', hd'⟩ := ih h2
        refine ⟨ch :: c', by rw [List.cons_append, hc'], ?hdis⟩
        case hdis =>
          rcases hd' with hnil | hlast
          · exact Or.inl hnil
          · refine Or.inr ?hl2
            case hl2 =>
              cases c' with
              | nil => exact absurd hlast (by simp)
              | cons a l =>
                rw [List.getLast?_cons_cons]
                exact hlast
      | none =>
        rw [h2] at h
        exact sepAlt_spec _ rem h
    · rw [if_neg hws] at h
      exact sepAlt_spec _ rem h

theorem sepAlt_ws_none (ch : Char) (rest : List Char) (hws : isWs ch = true)
    (hchn : ¬ ch = '\n') (hnr : ¬ rest.head? = some '\n') :
    sepAlt (ch :: rest) = none := by
  have hchd : ¬ ch = '-' := by
    intro he
    subst he
    simp [isWs] at hws
  cases rest with
  | nil =>
    rw [sepAlt, if_neg hchn]
  | cons c2 r2 =>
    rw [sepAlt, if_neg hchd]
    by_cases hchr : ch = '\r'
    · subst hchr
      rw [if_pos rfl]
      have hc2 : ¬ c2 = '\n' := by
        intro he
        subst he
        exact hnr rfl
      rw [if_neg hc2]
    · rw [if_neg hchr, if_neg hchn]

theorem sepAlt_nonws_none (ch : Char) (rest : List Char) (hws : isWs ch = false)
    (h3 : ¬ ("--".toList.isPrefixOf (ch :: rest) = true)) :
    sepAlt (ch :: rest) = none := by
  have hchr : ¬ ch = '\r' := by
    intro he
    subst he
    simp [isWs] at hws
  have hchn : ¬ ch = '\n' := by
    intro he
    subst he
    simp [isWs] at hws
  cases rest with
  | nil =>
    rw [sepAlt, if_neg hchn]
  | cons c2 r2 =>
    by_cases hd : ch = '-'
    · subst hd
      rw [sepAlt, if_pos rfl]
      by_cases h2d : c2 = '-'
      · subst h2d
        exact absurd (by simp [List.isPrefixOf]) h3
      · rw [if_neg h2d]
    · rw [sepAlt, if_neg hd, if_neg hchr, if_neg hchn]

/-- A semicolon followed, on the same line, by text that is not a line
comment never starts a separator: the greedy whitespace tail holds no
newline and the first non-whitespace characters are not a comment. -/
theorem sepWs_same_line_none (t : List Char)
    (h1 : '\n' ∉ t.takeWhile isWs) (h2 : ¬ t.dropWhile isWs = [])
    (h3 : ¬ ("--".toList.isPrefixOf (t.dropWhile isWs) = true)) :
    sepWs t = none := by
  induction t with
  | nil => exact absurd rfl h2
  | cons ch rest ih =>
    rw [sepWs]
    by_cases hws : isWs ch = true
    · rw [if_pos hws]
      have htk : (ch :: rest).takeWhile isWs = ch :: rest.takeWhile isWs := by
        simp [List.takeWhile_cons, hws]
      have hdp : (ch :: rest).dropWhile isWs = rest.dropWhile isWs := by
        simp [List.dropWhile_cons, hws]
      rw [htk] at h1
      rw [hdp] at h2 h3
      have hchn : ¬ ch = '\n' := fun he => h1 (he ▸ List.mem_cons_self _ _)
      have h1r : '\n' ∉ rest.takeWhile isWs := fun hm => h1 (List.mem_cons_of_mem _ hm)
      rw [ih h1r h2 h3]
      refine sepAlt_ws_none ch rest hws hchn ?hnr
      case hnr =>
        intro hhd
        cases rest with
        | nil => exact absurd hhd (by simp)
        | cons c2 r2 =>
          have hc2 : c2 = '\n' := by simpa using hhd
          subst hc2
          refine h1r ?hmem
          case hmem =>
            rw [List.takeWhile_cons, if_pos (by decide)]
            exact List.mem_cons_self _ _
    · rw [if_neg hws]
      have hdp : (ch :: rest).dropWhile isWs = ch :: rest := by
        simp [List.dropWhile_cons, hws]
      rw [hdp] at h3
      exact sepAlt_nonws_none ch rest (by revert hws; cases isWs ch <;> simp) h3

/-- C10: the statement splitter separates only at a semicolon whose
trailing match (optional whitespace with an optional line comment) ends
right after a line break or at end of input; a semicolon followed by
further non-comment text on the same line never terminates a statement,
so several statements written on one line are one statement (concretely,
`SELECT 1; SELECT 2;` on one line splits into a single statement, while
a semicolon followed by a line comment and a line break does split). -/
theorem C10_split_boundaries :
    (∀ t rem, sepWs t = some rem →
      ∃ c, t = c ++ rem ∧ (rem = [] ∨ c.getLast? = some '\n')) ∧
    (∀ t, '\n' ∉ t.takeWhile isWs → ¬ t.dropWhile isWs = [] →
      ¬ ("--".toList.isPrefixOf (t.dropWhile isWs) = true) → sepWs t = none) ∧
    splitSqlStatements "SELECT 1; SELECT 2;\n".toList =
      ["SELECT 1; SELECT 2".toList] ∧
    splitSqlStatements "SELECT 1; -- c\nSELECT 2;\n".toList =
      ["SELECT 1".toList, "SELECT 2".toList] :=
  ⟨sepWs_spec, sepWs_same_line_none, by decide, by decide⟩

/-- Witness for C10: a separator match ending at a concrete line break,
and a rejected same-line separator. -/
theorem C10_split_boundaries_witness :
    (∃ c, ("\nab".toList : List Char) = c ++ "ab".toList ∧
      ("ab".toList = ([] : List Char) ∨ c.getLast? = some '\n')) ∧
    sepWs " foo".toList = none :=
  ⟨C10_split_boundaries.1 "\nab".toList "ab".toList (by decide),
   C10_split_boundaries.2.1 " foo".toList (by decide) (by decide) (by decide)⟩

/-! ### Fetch-target location -/

/-- The loop `for i in range(len(stmts)-1, -1, -1): if select-like:
break`: the greatest index whose statement is select-like. -/
def findLastSelect : List (List Char) → Option Nat
  | [] => none
  | s :: rest =>
    match findLastSelect rest with
    | some j => some (j + 1)
    | none => if isSelectLike s then some 0 else none

/-- The fallback scan, last to first, for a created view name. -/
def findFallbackView : List (List Char) → Option (List Char)
  | [] => none
  | s :: rest =>
    match findFallbackView rest with
    | some v => some v
    | none => extractCreatedViewName s

/-! ## Query runner: execution (`_run_df`)

The SQLite engine is an external collaborator; it is modelled here just
far enough to execute the statement forms the testable properties use:
`DROP VIEW IF EXISTS v`, `CREATE VIEW v AS <query>`, `SELECT <n> AS
<col>` and `SELECT * FROM <view>`.  The store maps view names to their
defining query text; any statement outside this fragment is an engine
error, mirroring that store-level SQL errors propagate unmodified. -/

structure MiniDF where
  cols : List String
  rows : List (List Int)
deriving DecidableEq

def emptyMiniDF : MiniDF := ⟨[], []⟩

abbrev MiniStore : Type := List (String × List Char)

def lowEq (w : List Char) (pat : String) : Bool := lowerList w == pat.toList

def wordsAux (cur : List Char) : List Char → List (List Char)
  | [] => if cur = [] then [] else [cur.reverse]
  | c :: rest =>
    if isWs c then
      if cur = [] then wordsAux [] rest else cur.reverse :: wordsAux [] rest
    else wordsAux (c :: cur) rest

def wordsOf (cs : List Char) : List (List Char) := wordsAux [] cs

/-- Evaluate a query: `SELECT <int> AS <col>` or `SELECT * FROM <view>`
(resolving the view's stored query, with fuel bounding the depth). -/
def evalQueryF : Nat → MiniStore → List Char → Option MiniDF
  | 0, _, _ => none
  | fuelN + 1, st, q =>
    match wordsOf q with
    | [w1, w2, w3, w4] =>
      if lowEq w1 "select" && (w2 == ['*']) && lowEq w3 "from" then
        match lookupStr st (String.mk w4) with
        | none => none
        | some body => evalQueryF fuelN st body
      else if lowEq w1 "select" && lowEq w3 "as" then
        match parseChars w2 with
        | some n => some ⟨[String.mk w4], [[n]]⟩
        | none => none
      else none
    | _ => none

def matchDropView (stmt : List Char) : Option String :=
  match eatCI "drop".toList stmt with
  | none => none
  | some r1 =>
    match eatWs1 r1 with
    | none => none
    | some r2 =>
      match eatCI "view".toList r2 with
      | none => none
      | some r3 =>
        match eatWs1 r3 with
        | none => none
        | some r4 =>
          match eatCI "if".toList r4 with
          | none => none
          | some r5 =>
            match eatWs1 r5 with
            | none => none
            | some r6 =>
              match eatCI "exists".toList r6 with
              | none => none
              | some r7 =>
                match eatWs1 r7 with
                | none => none
                | some r8 =>
                  if r8.takeWhile isWordChar = [] ∨
                      ¬ (r8.dropWhile isWordChar = []) then none
                  else some (String.mk (r8.takeWhile isWordChar))

def matchCreateView (stmt : List Char) : Option (String × List Char) :=
  match eatCI "create".toList stmt with
  | none => none
  | some r1 =>
    match eatWs1 r1 with
    | none => none
    | some r2 =>
      match eatCI "view".toList r2 with
      | none => none
      | some r3 =>
        match eatWs1 r3 with
        | none => none
        | some r4 =>
          if r4.takeWhile isWordChar = [] then none
          else
            match eatWs1 (r4.dropWhile isWordChar) with
            | none => none
            | some r6 =>
              match eatCI "as".toList r6 with
              | none => none
              | some r7 =>
                match eatWs1 r7 with
                | none => none
                | some body => some (String.mk (r4.takeWhile isWordChar), body)

def removeView (st : MiniStore) (v : String) : MiniStore :=
  st.filter (fun nc => ¬ (nc.1 = v))

/-- `conn.exec_driver_sql` of one statement: queries run with their rows
discarded, the two supported DDL forms update the store, anything else is
an engine error. -/
def execStmt (fuel : Nat) (st : MiniStore) (stmt : List Char) : Option MiniStore :=
  if isSelectLike stmt then
    match evalQueryF fuel st stmt with
    | some _ => some st
    | none => none
  else
    match matchDropView stmt with
    | some v => some (removeView st v)
    | none =>
      match matchCreateView stmt with
      | some vb =>
        if (lookupStr st vb.1).isSome then none
        else some (st ++ [(vb.1, vb.2)])
      | none => none

/-- Run every statement except the fetch target, in order. -/
def execSetup (fuel : Nat) (st : MiniStore) (stmts : List (List Char))
    (skip : Option Nat) (i : Nat) : Option MiniStore :=
  match stmts with
  | [] => some st
  | s :: rest =>
    if skip = some i then execSetup fuel st rest skip (i + 1)
    else
      match execStmt fuel st s with
      | none => none
      | some st2 => execSetup fuel st2 rest skip (i + 1)

inductive RunErr where
  | scriptNotFound
  | sqlError
deriving DecidableEq

/-- `_read_sql`'s text normalization: CRLF and CR to LF, then strip a
leading byte-order mark. -/
def normNewlines : List Char → List Char
  | [] => []
  | '\r' :: '\n' :: rest => '\n' :: normNewlines rest
  | '\r' :: rest => '\n' :: normNewlines rest
  | c :: rest => c :: normNewlines rest

def normalizeScriptText (cs : List Char) : List Char :=
  (normNewlines cs).dropWhile (fun c => c.toNat = 65279)

/-- `_run_df`: read the script (missing file raises), return an empty
frame for blank content, split, locate the fetch target (last
select-like statement, else the last created view as fallback), execute
the setup statements, then fetch. -/
def runDf (fuel : Nat) (files : String → Option String) (qname : String)
    (st : MiniStore) : Except RunErr MiniDF :=
  match files qname with
  | none => Except.error RunErr.scriptNotFound
  | some txt =>
    let sql := normalizeScriptText txt.toList
    if pstrip sql = [] then Except.ok emptyMiniDF
    else
      let stmts := splitSqlStatements sql
      if stmts = [] then Except.ok emptyMiniDF
      else
        let lastSel := findLastSelect stmts
        let fb :=
          match lastSel with
          | some _ => none
          | none => findFallbackView stmts
        match execSetup fuel st stmts lastSel 0 with
        | none => Except.error RunErr.sqlError
        | some st2 =>
          match lastSel with
          | some i =>
            match stmts.get? i with
            | some s =>
              match evalQueryF fuel st2 s with
              | some df => Except.ok df
              | none => Except.error RunErr.sqlError
            | none => Except.error RunErr.sqlError
          | none =>
            match fb with
            | some v =>
              match evalQueryF fuel st2 ("SELECT * FROM ".toList ++ v) with
              | some df => Except.ok df
              | none => Except.error RunErr.sqlError
            | none => Except.ok emptyMiniDF

/-! ### Fetch-target characterization -/

theorem findLastSelect_none (stmts : List (List Char))
    (h : findLastSelect stmts = none) : ∀ s ∈ stmts, isSelectLike s = false := by
  induction stmts with
  | nil => intro s hs; exact absurd hs (List.not_mem_nil _)
  | cons s0 rest ih =>
    rw [findLastSelect] at h
    cases h2 : findLastSelect rest with
    | some j => rw [h2] at h; exact absurd h (by simp)
    | none =>
      rw [h2] at h
      by_cases hsel : isSelectLike s0 = true
      · rw [if_pos hsel] at h
        exact absurd h (by simp)
      · intro s hs
        rcases List.mem_cons.mp hs with rfl | hmem
        · revert hsel
          cases isSelectLike s <;> simp
        · exact ih h2 s hmem

theorem findLastSelect_some (stmts : List (List Char)) (i : Nat)
    (h : findLastSelect stmts = some i) :
    (∃ s, stmts.get? i = some s ∧ isSelectLike s = true) ∧
    (∀ j s, i < j → stmts.get? j = some s → isSelectLike s = false) := by
  induction stmts generalizing i with
  | nil => exact absurd h (by simp [findLastSelect])
  | cons s0 rest ih =>
    rw [findLastSelect] at h
    cases h2 : findLastSelect rest with
    | some j =>
      rw [h2] at h
      have hi : i = j + 1 := (Option.some.inj h).symm
      subst hi
      obtain ⟨⟨s1, hget, hsel⟩, hmax⟩ := ih j h2
      refine ⟨⟨s1, by simpa using hget, hsel⟩, ?hm⟩
      case hm =>
        intro j2 s2 hlt hget2
        cases j2 with
        | zero => exact absurd hlt (by omega)
        | succ k =>
          have : rest.get? k = some s2 := by simpa using hget2
          exact hmax k s2 (by omega) this
    | none =>
      rw [h2] at h
      by_cases hsel : isSelectLike s0 = true
      · rw [if_pos hsel] at h
        have hi : i = 0 := (Option.some.inj h).symm
        subst hi
        refine ⟨⟨s0, rfl, hsel⟩, ?hm2⟩
        case hm2 =>
          intro j2 s2 hlt hget2
          cases j2 with
          | zero => exact absurd hlt (by omega)
          | succ k =>
            have hk : rest.get? k = some s2 := by simpa using hget2
            exact findLastSelect_none rest h2 s2 (List.get?_mem hk)
      · rw [if_neg hsel] at h
        exact absurd h (by simp)

theorem findFallbackView_none (stmts : List (List Char))
    (h : findFallbackView stmts = none) :
    ∀ s ∈ stmts, extractCreatedViewName s = none := by
  induction stmts with
  | nil => intro s hs; exact absurd hs (List.not_mem_nil _)
  | cons s0 rest ih =>
    rw [findFallbackView] at h
    cases h2 : findFallbackView rest with
    | some v => rw [h2] at h; exact absurd h (by simp)
    | none =>
      rw [h2] at h
      intro s hs
      rcases List.mem_cons.mp hs with rfl | hmem
      · exact h
      · exact ih h2 s hmem

theorem findFallbackView_some (stmts : List (List Char)) (v : List Char)
    (h : findFallbackView stmts = some v) :
    ∃ j s, stmts.get? j = some s ∧ extractCreatedViewName s = some v ∧
      ∀ j2 s2, j < j2 → stmts.get? j2 = some s2 →
        extractCreatedViewName s2 = none := by
  induction stmts generalizing v with
  | nil => exact absurd h (by simp [findFallbackView])
  | cons s0 rest ih =>
    rw [findFallbackView] at h
    cases h2 : findFallbackView rest with
    | some v0 =>
      rw [h2] at h
      have hv : v0 = v := Option.some.inj h
      subst hv
      obtain ⟨j, s1, hget, hnm, hmax⟩ := ih v0 h2
      refine ⟨j + 1, s1, by simpa using hget, hnm, ?hm⟩
      case hm =>
        intro j2 s2 hlt hget2
        cases j2 with
        | zero => exact absurd hlt (by omega)
        | succ k =>
          have : rest.get? k = some s2 := by simpa using hget2
          exact hmax k s2 (by omega) this
    | none =>
      rw [h2] at h
      refine ⟨0, s0, rfl, h, ?hm2⟩
      case hm2 =>
        intro j2 s2 hlt hget2
        cases j2 with
        | zero => exact absurd hlt (by omega)
        | succ k =>
          have hk : rest.get? k = some s2 := by simpa using hget2
          exact findFallbackView_none rest h2 s2 (List.get?_mem hk)

/-! ### The two concrete query scripts of the testable properties -/

def c2files : String → Option String := fun n =>
  if n = "q1" then
    some "DROP VIEW IF EXISTS v;\nCREATE VIEW v AS SELECT 1 AS x;\nSELECT * FROM v;\n"
  else if n = "q2" then some "CREATE VIEW v AS SELECT 1 AS x;\n"
  else none

/-- C2: the fetch target of a multi-statement script is the last
statement lexically starting with `select` or `with` (no later statement
is select-like); when none exists, the fallback is the name of the last
statement from which a created-view name can be extracted.  Concretely,
the script `DROP VIEW IF EXISTS v; CREATE VIEW v AS SELECT 1 AS x;
SELECT * FROM v;` returns the one-row, one-column result `x = 1`, and
the script consisting only of `CREATE VIEW v AS SELECT 1 AS x;` returns
the same result through the fallback path. -/
theorem C2_fetch_target :
    (∀ stmts i, findLastSelect stmts = some i →
      (∃ s, stmts.get? i = some s ∧ isSelectLike s = true) ∧
      (∀ j s, i < j → stmts.get? j = some s → isSelectLike s = false)) ∧
    (∀ stmts v, findLastSelect stmts = none → findFallbackView stmts = some v →
      ∃ j s, stmts.get? j = some s ∧ extractCreatedViewName s = some v ∧
        ∀ j2 s2, j < j2 → stmts.get? j2 = some s2 →
          extractCreatedViewName s2 = none) ∧
    runDf 9 c2files "q1" [] = Except.ok ⟨["x"], [[1]]⟩ ∧
    runDf 9 c2files "q2" [] = Except.ok ⟨["x"], [[1]]⟩ :=
  ⟨findLastSelect_some, fun stmts v _ h => findFallbackView_some stmts v h, rfl, rfl⟩

/-- Witness for C2's quantified parts at a concrete statement list. -/
theorem C2_fetch_target_witness :
    ((∃ s, ["SELECT 1".toList, "DROP VIEW v".toList].get? 0 = some s ∧
        isSelectLike s = true) ∧
      (∀ j s, 0 < j → ["SELECT 1".toList, "DROP VIEW v".toList].get? j = some s →
        isSelectLike s = false)) ∧
    (∃ j s, ["CREATE VIEW w AS SELECT 2 AS y".toList].get? j = some s ∧
        extractCreatedViewName s = some "w".toList ∧
        ∀ j2 s2, j < j2 →
          ["CREATE VIEW w AS SELECT 2 AS y".toList].get? j2 = some s2 →
          extractCreatedViewName s2 = none) :=
  ⟨C2_fetch_target.1 ["SELECT 1".toList, "DROP VIEW v".toList] 0 (by decide),
   C2_fetch_target.2.1 ["CREATE VIEW w AS SELECT 2 AS y".toList] "w".toList
     (by decide) (by decide)⟩

/-- C7: a missing script file is a hard failure (the script-not-found
error), while a script whose content is empty yields an empty result
frame immediately. -/
theorem C7_missing_and_empty (fuel : Nat) (files : String → Option String)
    (qname : String) (st : MiniStore) :
    (files qname = none →
      runDf fuel files qname st = Except.error RunErr.scriptNotFound) ∧
    (files qname = some "" → runDf fuel files qname st = Except.ok emptyMiniDF) := by
  constructor
  · intro h
    simp [runDf, h]
  · intro h
    simp [runDf, h]
    intro hcon
    exact absurd (by decide) hcon

def c7files : String → Option String := fun n => if n = "empty" then some "" else none

/-- Witness for C7 at a concrete file system. -/
theorem C7_missing_and_empty_witness :
    runDf 1 c7files "missing" [] = Except.error RunErr.scriptNotFound ∧
    runDf 1 c7files "empty" [] = Except.ok emptyMiniDF :=
  ⟨(C7_missing_and_empty 1 c7files "missing" []).1 rfl,
   (C7_missing_and_empty 1 c7files "empty" []).2 rfl⟩

end OlistEtl
